import Mathlib

set_option maxHeartbeats 1000000

/-!
Verification development for the sqldantic persistence engine
(src/linkedin_ai/core/sqldantic.py): the type classifier, schema
derivation, the recursive write/read graph walkers, the query
factories, and the execution layer with its ignorable-error policy.

Python runtime values are embedded shallowly: typing annotations become
the inductive `Ann` (whose `union`/`annotated`/`seqOf`/`mapOf` argument
lists are exactly what `typing.get_args` returns, so a null union
variant appears as `Ann.noneType`, i.e. `type(None)`); pydantic model
instances become `PyVal.vobj`; SQLite storage cells become `Cell`,
where a TEXT cell holding `json.dumps v` is modelled by the injective
constructor `Cell.cjson v` (Python's json round-trips the str-keyed
dicts / lists / strings / ints that occur here, so encode/decode is
modelled as the identity on that subset).
-/

/-- Embedding of Python typing annotations as consumed by
`get_origin` / `get_args` in `get_sqldantic_type`. -/
inductive Ann where
  | noneLit
  | noneType
  | pyStr
  | pyBytes
  | pyBool
  | pyInt
  | pyFloat
  | pyDatetime
  | model (name : String) (fields : List (String × Ann))
  | union (args : List Ann)
  | annotated (args : List Ann)
  | seqOf (args : List Ann)
  | mapOf (args : List Ann)
  | otherTy (name : String)
deriving Repr

mutual

/-- Boolean structural equality on annotations (Lean's `deriving` does
not handle the nested `List` occurrences, so decidable equality is
built by hand from this function). -/
def annBeq : Ann → Ann → Bool
  | .noneLit, .noneLit => true
  | .noneType, .noneType => true
  | .pyStr, .pyStr => true
  | .pyBytes, .pyBytes => true
  | .pyBool, .pyBool => true
  | .pyInt, .pyInt => true
  | .pyFloat, .pyFloat => true
  | .pyDatetime, .pyDatetime => true
  | .model n1 f1, .model n2 f2 => n1 == n2 && annFieldsBeq f1 f2
  | .union a1, .union a2 => annsBeq a1 a2
  | .annotated a1, .annotated a2 => annsBeq a1 a2
  | .seqOf a1, .seqOf a2 => annsBeq a1 a2
  | .mapOf a1, .mapOf a2 => annsBeq a1 a2
  | .otherTy n1, .otherTy n2 => n1 == n2
  | _, _ => false

/-- Boolean equality on annotation lists. -/
def annsBeq : List Ann → List Ann → Bool
  | [], [] => true
  | a :: as, b :: bs => annBeq a b && annsBeq as bs
  | _, _ => false

/-- Boolean equality on named-field lists. -/
def annFieldsBeq : List (String × Ann) → List (String × Ann) → Bool
  | [], [] => true
  | (n1, a) :: as, (n2, b) :: bs => n1 == n2 && annBeq a b && annFieldsBeq as bs
  | _, _ => false

end

mutual

theorem annBeq_eq : (a b : Ann) → annBeq a b = true → a = b
  | .noneLit, b, h => by cases b <;> simp_all [annBeq]
  | .noneType, b, h => by cases b <;> simp_all [annBeq]
  | .pyStr, b, h => by cases b <;> simp_all [annBeq]
  | .pyBytes, b, h => by cases b <;> simp_all [annBeq]
  | .pyBool, b, h => by cases b <;> simp_all [annBeq]
  | .pyInt, b, h => by cases b <;> simp_all [annBeq]
  | .pyFloat, b, h => by cases b <;> simp_all [annBeq]
  | .pyDatetime, b, h => by cases b <;> simp_all [annBeq]
  | .model n1 f1, b, h => by
    cases b <;> simp_all [annBeq]
    exact annFieldsBeq_eq f1 _ h.2
  | .union a1, b, h => by
    cases b <;> simp_all [annBeq]
    exact annsBeq_eq a1 _ h
  | .annotated a1, b, h => by
    cases b <;> simp_all [annBeq]
    exact annsBeq_eq a1 _ h
  | .seqOf a1, b, h => by
    cases b <;> simp_all [annBeq]
    exact annsBeq_eq a1 _ h
  | .mapOf a1, b, h => by
    cases b <;> simp_all [annBeq]
    exact annsBeq_eq a1 _ h
  | .otherTy n1, b, h => by cases b <;> simp_all [annBeq]

theorem annsBeq_eq : (a b : List Ann) → annsBeq a b = true → a = b
  | [], b, h => by cases b <;> simp_all [annsBeq]
  | a :: as, b, h => by
    cases b <;> simp_all [annsBeq]
    exact ⟨annBeq_eq a _ h.1, annsBeq_eq as _ h.2⟩

theorem annFieldsBeq_eq :
    (a b : List (String × Ann)) → annFieldsBeq a b = true → a = b
  | [], b, h => by cases b <;> simp_all [annFieldsBeq]
  | (n, a) :: as, b, h => by
    cases b with
    | nil => simp_all [annFieldsBeq]
    | cons hd tl =>
      obtain ⟨n2, b2⟩ := hd
      simp_all [annFieldsBeq]
      exact ⟨annBeq_eq a _ h.1.2, annFieldsBeq_eq as _ h.2⟩

end

mutual

theorem annBeq_refl : (a : Ann) → annBeq a a = true
  | .noneLit => rfl
  | .noneType => rfl
  | .pyStr => rfl
  | .pyBytes => rfl
  | .pyBool => rfl
  | .pyInt => rfl
  | .pyFloat => rfl
  | .pyDatetime => rfl
  | .model n f => by simp [annBeq, annFieldsBeq_refl f]
  | .union a => by simp [annBeq, annsBeq_refl a]
  | .annotated a => by simp [annBeq, annsBeq_refl a]
  | .seqOf a => by simp [annBeq, annsBeq_refl a]
  | .mapOf a => by simp [annBeq, annsBeq_refl a]
  | .otherTy n => by simp [annBeq]

theorem annsBeq_refl : (a : List Ann) → annsBeq a a = true
  | [] => rfl
  | a :: as => by simp [annsBeq, annBeq_refl a, annsBeq_refl as]

theorem annFieldsBeq_refl : (a : List (String × Ann)) → annFieldsBeq a a = true
  | [] => rfl
  | (n, a) :: as => by
    simp [annFieldsBeq, annBeq_refl a, annFieldsBeq_refl as]

end

instance : DecidableEq Ann := fun a b =>
  decidable_of_iff (annBeq a b = true)
    ⟨annBeq_eq a b, fun h => h ▸ annBeq_refl a⟩

/-- Values of the `SQLDanticType` union: the SQL storage category of a
field, with `modelT` standing for a `BaseModel` subclass (carrying its
name and declared fields). -/
inductive SType where
  | null
  | text
  | blob
  | integer
  | real
  | timestamp
  | unionT
  | annotatedT
  | sequenceT
  | mappingT
  | unknown
  | modelT (name : String) (fields : List (String × Ann))
deriving Repr

/-- Boolean structural equality on storage categories. -/
def sTypeBeq : SType → SType → Bool
  | .null, .null => true
  | .text, .text => true
  | .blob, .blob => true
  | .integer, .integer => true
  | .real, .real => true
  | .timestamp, .timestamp => true
  | .unionT, .unionT => true
  | .annotatedT, .annotatedT => true
  | .sequenceT, .sequenceT => true
  | .mappingT, .mappingT => true
  | .unknown, .unknown => true
  | .modelT n1 f1, .modelT n2 f2 => n1 == n2 && annFieldsBeq f1 f2
  | _, _ => false

theorem sTypeBeq_eq (a b : SType) (h : sTypeBeq a b = true) : a = b := by
  cases a <;> cases b <;> simp_all [sTypeBeq]
  exact annFieldsBeq_eq _ _ h.2

theorem sTypeBeq_refl (a : SType) : sTypeBeq a a = true := by
  cases a <;> simp [sTypeBeq]
  exact annFieldsBeq_refl _

instance : DecidableEq SType := fun a b =>
  decidable_of_iff (sTypeBeq a b = true)
    ⟨sTypeBeq_eq a b, fun h => h ▸ sTypeBeq_refl a⟩

/-- `SQLDanticFieldType`: a category together with an optional item
category (sequence element) or key/value category pair (mapping). -/
abbrev SFieldType := SType × Option (SType ⊕ SType × SType)

/-- The default `SQLDANTIC_TYPE_MAP` (concrete-type entries; the bare
special-form keys `Union`/`Annotated`/`Sequence`/`Mapping` are not
representable as parametrized annotations and never looked up here).
Note that the map's null key is the literal `None`, not `type(None)`. -/
def SQLDANTIC_TYPE_MAP : Ann → Option SType := fun a =>
  match a with
  | .noneLit => some .null
  | .pyStr => some .text
  | .pyBytes => some .blob
  | .pyBool => some .integer
  | .pyInt => some .integer
  | .pyFloat => some .real
  | .pyDatetime => some .timestamp
  | _ => none

/-- `sqldantic_type_map.get(annotation, "UNKNOWN")`. -/
def mapLookup (tm : Ann → Option SType) (a : Ann) : SType :=
  (tm a).getD .unknown

mutual

/-- `get_sqldantic_type` with the default type map (the source's
recursive calls always use the default map). -/
def classifyDefault : Ann → SFieldType
  | .model n fs => (.modelT n fs, none)
  | .union args => classifyUnionDefault (.union args) args
  | .annotated args => classifyUnionDefault (.annotated args) args
  | .seqOf args =>
    match args with
    | [] => (.sequenceT, some (.inl .unknown))
    | a :: _ => (.sequenceT, some (.inl (classifyDefault a).1))
  | .mapOf args =>
    match args with
    | k :: v :: _ =>
      (.mappingT, some (.inr ((classifyDefault k).1, (classifyDefault v).1)))
    | _ => (.mappingT, some (.inl .unknown))
  | a => (mapLookup SQLDANTIC_TYPE_MAP a, none)

/-- The union/annotated branch loop: skip args that are the literal
`None`, return the first arg whose category is not UNION/ANNOTATED;
fall through to the map lookup of the whole annotation. -/
def classifyUnionDefault (orig : Ann) : List Ann → SFieldType
  | [] => (mapLookup SQLDANTIC_TYPE_MAP orig, none)
  | a :: rest =>
    if a = Ann.noneLit then classifyUnionDefault orig rest
    else
      match classifyDefault a with
      | (SType.unionT, _) => classifyUnionDefault orig rest
      | (SType.annotatedT, _) => classifyUnionDefault orig rest
      | r => r

end

/-- The union scan of the top-level `get_sqldantic_type` call (the same
loop as `classifyUnionDefault`, but the final fall-through map lookup
uses the caller's map). -/
def get_sqldantic_type_union (tm : Ann → Option SType) (orig : Ann) :
    List Ann → SFieldType
  | [] => (mapLookup tm orig, none)
  | a :: rest =>
    if a = Ann.noneLit then get_sqldantic_type_union tm orig rest
    else
      match classifyDefault a with
      | (SType.unionT, _) => get_sqldantic_type_union tm orig rest
      | (SType.annotatedT, _) => get_sqldantic_type_union tm orig rest
      | r => r

/-- `get_sqldantic_type(annotation, sqldantic_type_map)`: the top-level
call uses the caller's map for its own lookups, while every recursive
call in the source omits the map argument and therefore uses the
default map. -/
def get_sqldantic_type (tm : Ann → Option SType) : Ann → SFieldType
  | .model n fs => (.modelT n fs, none)
  | .union args => get_sqldantic_type_union tm (.union args) args
  | .annotated args => get_sqldantic_type_union tm (.annotated args) args
  | .seqOf args =>
    match args with
    | [] => (.sequenceT, some (.inl .unknown))
    | a :: _ => (.sequenceT, some (.inl (classifyDefault a).1))
  | .mapOf args =>
    match args with
    | k :: v :: _ =>
      (.mappingT, some (.inr ((classifyDefault k).1, (classifyDefault v).1)))
    | _ => (.mappingT, some (.inl .unknown))
  | a => (mapLookup tm a, none)

/-- A pydantic model class: `__name__` and `model_fields` in declared
order. -/
structure ModelTy where
  name : String
  fields : List (String × Ann)
deriving Repr, DecidableEq

/-- `get_model_sqldantic_fields`. -/
def get_model_sqldantic_fields (tm : Ann → Option SType) (m : ModelTy) :
    List (String × SFieldType) :=
  m.fields.map (fun p => (p.1, get_sqldantic_type tm p.2))

/-- `get_table_name_from_class_name`: returns `model.__name__`
(never raises). -/
def get_table_name_from_class_name (m : ModelTy) : Option String :=
  some m.name

/-- `get_table_name_from_schema`: reads the model name out of the
pydantic core schema, which for the models at hand coincides with the
class name. -/
def get_table_name_from_schema (m : ModelTy) : Option String :=
  some m.name

/-- `get_table_name`: try each getter in order, returning the first
truthy (non-empty) result; a getter that raises or returns a falsy
value (modelled by `none` / `""`) is skipped; raise (`none`) if all
fail. -/
def get_table_name (getters : List (ModelTy → Option String)) (m : ModelTy) :
    Option String :=
  match getters with
  | [] => none
  | g :: rest =>
    match g m with
    | some s => if s = "" then get_table_name rest m else some s
    | none => get_table_name rest m

/-- Python `str.endswith` (via character lists, so that it evaluates
inside the kernel). -/
def strEndsWith (s suf : String) : Bool :=
  suf.data.isSuffixOf s.data

/-- Table-name transformer `pluralize`. -/
def pluralize (s : String) : String :=
  s ++ (if strEndsWith s "s" then "es" else "s")

/-- `transform_table_name`: apply every transformer in order. -/
def transform_table_name (ts : List (String → String)) (s : String) : String :=
  ts.foldl (fun acc t => t acc) s

/-- `str.lower`, the first default transformer (character-wise, which
coincides with Python on the ASCII class names used here). -/
def strLower (s : String) : String := String.mk (s.data.map Char.toLower)

/-- `get_primary_key_from_first_field`: the first declared field
(`none` models the `StopIteration` on a fieldless model). -/
def get_primary_key_from_first_field (m : ModelTy) : Option String :=
  m.fields.head?.map Prod.fst

/-- `get_primary_key`: a fixed field name or a getter callable. -/
def get_primary_key (g : String ⊕ (ModelTy → Option String)) (m : ModelTy) :
    Option String :=
  match g with
  | .inl s => some s
  | .inr f => f m

/-- The naming / type-mapping configuration of `SQLDanticSchema.__init__`. -/
structure SchemaConfig where
  typeMap : Ann → Option SType
  tableNameGetters : List (ModelTy → Option String)
  tableNameTransformers : List (String → String)
  primaryKeyGetter : String ⊕ (ModelTy → Option String)

/-- The defaults of `SQLDanticSchema.__init__` / `BaseDB.__init__`. -/
def defaultSchemaConfig : SchemaConfig where
  typeMap := SQLDANTIC_TYPE_MAP
  tableNameGetters := [get_table_name_from_class_name, get_table_name_from_schema]
  tableNameTransformers := [strLower, pluralize]
  primaryKeyGetter := .inr get_primary_key_from_first_field

/-- The derived schema descriptor (`SQLDanticSchema` attributes). -/
structure SQLDanticSchema where
  model : ModelTy
  table_name : String
  primary_key : String
  sqldantic_fields : List (String × SFieldType)
deriving Repr, DecidableEq

/-- `SQLDanticSchema.__init__`: derive the table name through the getter
chain, transform it, derive the primary key, classify the fields.
`none` models the `ValueError` raised when no getter produces a name
(or the primary-key derivation fails on a fieldless model). -/
def mkSQLDanticSchema (cfg : SchemaConfig) (m : ModelTy) :
    Option SQLDanticSchema :=
  match get_table_name cfg.tableNameGetters m with
  | none => none
  | some tn =>
    match get_primary_key cfg.primaryKeyGetter m with
    | none => none
    | some pk =>
      some { model := m
             table_name := transform_table_name cfg.tableNameTransformers tn
             primary_key := pk
             sqldantic_fields := get_model_sqldantic_fields cfg.typeMap m }

/-- `BaseDB.get_sqldantic_schema` under the default configuration. -/
def schemaOf (m : ModelTy) : Option SQLDanticSchema :=
  mkSQLDanticSchema defaultSchemaConfig m

example :
    get_sqldantic_type SQLDANTIC_TYPE_MAP (.union [.pyInt, .noneType]) =
      (.integer, none) := by decide

example :
    get_sqldantic_type SQLDANTIC_TYPE_MAP (.union [.noneType, .pyInt]) =
      (.unknown, none) := by decide

/-- Embedding of the Python runtime values that flow through the write
and read paths: `None`, `str`, `int`, `list`, (string-keyed) `dict`,
and pydantic model instances (`vobj` carries the model class and the
field values in declared order). -/
inductive PyVal where
  | vnone
  | vstr (s : String)
  | vint (n : Int)
  | vlist (xs : List PyVal)
  | vdict (kvs : List (String × PyVal))
  | vobj (ty : ModelTy) (vals : List PyVal)
deriving Repr

mutual

/-- Boolean structural equality on runtime values (pydantic `==`:
same class and equal fields). -/
def pyBeq : PyVal → PyVal → Bool
  | .vnone, .vnone => true
  | .vstr a, .vstr b => a == b
  | .vint a, .vint b => a == b
  | .vlist a, .vlist b => pyListBeq a b
  | .vdict a, .vdict b => pyKvBeq a b
  | .vobj t1 v1, .vobj t2 v2 => t1 == t2 && pyListBeq v1 v2
  | _, _ => false

/-- Boolean equality on value lists. -/
def pyListBeq : List PyVal → List PyVal → Bool
  | [], [] => true
  | a :: as, b :: bs => pyBeq a b && pyListBeq as bs
  | _, _ => false

/-- Boolean equality on key/value lists. -/
def pyKvBeq : List (String × PyVal) → List (String × PyVal) → Bool
  | [], [] => true
  | (k1, a) :: as, (k2, b) :: bs => k1 == k2 && pyBeq a b && pyKvBeq as bs
  | _, _ => false

end

mutual

theorem pyBeq_eq : (a b : PyVal) → pyBeq a b = true → a = b
  | .vnone, b, h => by cases b <;> simp_all [pyBeq]
  | .vstr s, b, h => by cases b <;> simp_all [pyBeq]
  | .vint n, b, h => by cases b <;> simp_all [pyBeq]
  | .vlist xs, b, h => by
    cases b <;> simp_all [pyBeq]
    exact pyListBeq_eq xs _ h
  | .vdict kvs, b, h => by
    cases b <;> simp_all [pyBeq]
    exact pyKvBeq_eq kvs _ h
  | .vobj t v, b, h => by
    cases b <;> simp_all [pyBeq]
    exact pyListBeq_eq v _ h.2

theorem pyListBeq_eq : (a b : List PyVal) → pyListBeq a b = true → a = b
  | [], b, h => by cases b <;> simp_all [pyListBeq]
  | a :: as, b, h => by
    cases b <;> simp_all [pyListBeq]
    exact ⟨pyBeq_eq a _ h.1, pyListBeq_eq as _ h.2⟩

theorem pyKvBeq_eq :
    (a b : List (String × PyVal)) → pyKvBeq a b = true → a = b
  | [], b, h => by cases b <;> simp_all [pyKvBeq]
  | (k, a) :: as, b, h => by
    cases b with
    | nil => simp_all [pyKvBeq]
    | cons hd tl =>
      obtain ⟨k2, b2⟩ := hd
      simp_all [pyKvBeq]
      exact ⟨pyBeq_eq a _ h.1.2, pyKvBeq_eq as _ h.2⟩

end

mutual

theorem pyBeq_refl : (a : PyVal) → pyBeq a a = true
  | .vnone => rfl
  | .vstr s => by simp [pyBeq]
  | .vint n => by simp [pyBeq]
  | .vlist xs => by simp [pyBeq, pyListBeq_refl xs]
  | .vdict kvs => by simp [pyBeq, pyKvBeq_refl kvs]
  | .vobj t v => by simp [pyBeq, pyListBeq_refl v]

theorem pyListBeq_refl : (a : List PyVal) → pyListBeq a a = true
  | [] => rfl
  | a :: as => by simp [pyListBeq, pyBeq_refl a, pyListBeq_refl as]

theorem pyKvBeq_refl : (a : List (String × PyVal)) → pyKvBeq a a = true
  | [] => rfl
  | (k, a) :: as => by simp [pyKvBeq, pyBeq_refl a, pyKvBeq_refl as]

end

instance : DecidableEq PyVal := fun a b =>
  decidable_of_iff (pyBeq a b = true)
    ⟨pyBeq_eq a b, fun h => h ▸ pyBeq_refl a⟩

/-- Python `str()` on the values it is applied to by the engine
(primary keys and sequence elements, which are scalars in practice). -/
def pyToStr : PyVal → String
  | .vnone => "None"
  | .vstr s => s
  | .vint n => toString n
  | .vlist _ => "<list>"
  | .vdict _ => "<dict>"
  | .vobj ty _ => "<" ++ ty.name ++ " object>"

/-- A SQLite storage cell: NULL, TEXT, INTEGER, or a TEXT cell holding
`json.dumps v` (kept structured; Python's json round-trips the values
stored here, so the encoding is modelled as the identity). -/
inductive Cell where
  | cnull
  | ctext (s : String)
  | cint (n : Int)
  | cjson (v : PyVal)
deriving Repr

/-- Boolean equality on cells. -/
def cellBeq : Cell → Cell → Bool
  | .cnull, .cnull => true
  | .ctext a, .ctext b => a == b
  | .cint a, .cint b => a == b
  | .cjson a, .cjson b => pyBeq a b
  | _, _ => false

theorem cellBeq_eq (a b : Cell) (h : cellBeq a b = true) : a = b := by
  cases a <;> cases b <;> simp_all [cellBeq]
  exact pyBeq_eq _ _ h

theorem cellBeq_refl (a : Cell) : cellBeq a a = true := by
  cases a <;> simp [cellBeq]
  exact pyBeq_refl _

instance : DecidableEq Cell := fun a b =>
  decidable_of_iff (cellBeq a b = true)
    ⟨cellBeq_eq a b, fun h => h ▸ cellBeq_refl a⟩

/-- How sqlite3 stores a scalar Python parameter bound into a query
(`str` → TEXT, `int` → INTEGER, `None` → NULL; non-scalars reach this
point only as already-JSON-encoded values). -/
def toCell : PyVal → Cell
  | .vnone => .cnull
  | .vstr s => .ctext s
  | .vint n => .cint n
  | v => .cjson v

/-- The Python value a fetched cell presents to the read path. A raw
`cjson` cell read *without* decoding appears as its JSON text; the
rendering is irrelevant to every property proved here and is kept
abstract. -/
def cellToPy : Cell → PyVal
  | .cnull => .vnone
  | .ctext s => .vstr s
  | .cint n => .vint n
  | .cjson _ => .vstr "<json text>"

/-- `BaseDB.SEQUENCE_SEPARATOR`. -/
def SEQUENCE_SEPARATOR : String := ","

/-- The separator as a character (it is the single character `,`). -/
def sepChar : Char := ','

/-- Python `sep.join` at the character-list level: `[] → ""`,
`[a] → a`, `a :: rest → a ++ sep ++ join rest`. -/
def pyJoinChars (sep : Char) : List (List Char) → List Char
  | [] => []
  | [a] => a
  | a :: rest => a ++ sep :: pyJoinChars sep rest

/-- Python `str.split` at the character-list level: splitting the empty
string yields `[[]]`, i.e. one empty group. -/
def pySplitChars (sep : Char) : List Char → List (List Char)
  | [] => [[]]
  | c :: rest =>
    if c = sep then [] :: pySplitChars sep rest
    else
      match pySplitChars sep rest with
      | [] => [[c]]
      | g :: gs => (c :: g) :: gs

/-- `SEQUENCE_SEPARATOR.join(items)`. -/
def pyJoin (xs : List String) : String :=
  String.mk (pyJoinChars sepChar (xs.map String.data))

/-- `value.split(SEQUENCE_SEPARATOR)`. -/
def pySplit (s : String) : List String :=
  (pySplitChars sepChar s.data).map String.mk

theorem pySplitChars_ne_nil (sep : Char) (l : List Char) :
    pySplitChars sep l ≠ [] := by
  induction l with
  | nil => simp [pySplitChars]
  | cons c rest ih =>
    simp only [pySplitChars]
    split
    · simp
    · split
      · simp
      · simp

theorem pySplit_ne_nil (s : String) : pySplit s ≠ [] := by
  simp [pySplit, pySplitChars_ne_nil]

theorem pySplitChars_no_sep (sep : Char) (a : List Char) (h : sep ∉ a) :
    pySplitChars sep a = [a] := by
  induction a with
  | nil => rfl
  | cons c rest ih =>
    simp only [List.mem_cons, not_or] at h
    simp only [pySplitChars]
    rw [if_neg (fun hc => h.1 hc.symm), ih h.2]

theorem pySplitChars_append (sep : Char) (a rest : List Char) (h : sep ∉ a) :
    pySplitChars sep (a ++ sep :: rest) = a :: pySplitChars sep rest := by
  induction a with
  | nil => simp [pySplitChars]
  | cons c tl ih =>
    simp only [List.mem_cons, not_or] at h
    simp only [List.cons_append, pySplitChars]
    rw [if_neg (fun hc => h.1 hc.symm)]
    simp only [List.append_eq]
    rw [ih h.2]

theorem pySplitChars_pyJoinChars (sep : Char) (gs : List (List Char))
    (hne : gs ≠ []) (hsep : ∀ g ∈ gs, sep ∉ g) :
    pySplitChars sep (pyJoinChars sep gs) = gs := by
  induction gs with
  | nil => exact absurd rfl hne
  | cons a rest ih =>
    cases rest with
    | nil =>
      simp only [pyJoinChars]
      exact pySplitChars_no_sep sep a (hsep a (by simp))
    | cons b tl =>
      have hj : pyJoinChars sep (a :: b :: tl) = a ++ sep :: pyJoinChars sep (b :: tl) := rfl
      rw [hj, pySplitChars_append sep a _ (hsep a (by simp))]
      rw [ih (by simp) (fun g hg => hsep g (List.mem_cons_of_mem a hg))]

theorem String.mk_data (s : String) : String.mk s.data = s := rfl

theorem pySplit_pyJoin (xs : List String) (hne : xs ≠ [])
    (hsep : ∀ x ∈ xs, sepChar ∉ x.data) :
    pySplit (pyJoin xs) = xs := by
  unfold pySplit pyJoin
  rw [show (String.mk (pyJoinChars sepChar (xs.map String.data))).data
        = pyJoinChars sepChar (xs.map String.data) from rfl]
  rw [pySplitChars_pyJoinChars sepChar (xs.map String.data)
    (by simpa using hne)
    (by intro g hg; obtain ⟨x, hx, rfl⟩ := List.mem_map.mp hg; exact hsep x hx)]
  rw [List.map_map]
  have : (String.mk ∘ String.data) = (id : String → String) := by
    funext s; exact String.mk_data s
  rw [this, List.map_id]

/-- Python `str.startswith` (restricted to a single string argument). -/
def strStartsWith (s pre : String) : Bool :=
  pre.data.isPrefixOf s.data

theorem strStartsWith_append (a b : String) :
    strStartsWith (a ++ b) a = true := by
  show (a.data.isPrefixOf (a.data ++ b.data)) = true
  rw [List.isPrefixOf_iff_prefix]
  exact ⟨b.data, rfl⟩

/-- A raised `sqlite3.Error`: its concrete class (by name) and its
`str(e)` message. -/
structure SqliteErr where
  kind : String
  msg : String
deriving Repr, DecidableEq

/-- An element of the `ignore_sqlite_errors` collection: either a
sqlite exception class (by name) or a message-prefix string. -/
inductive IgnoreElem where
  | excClass (name : String)
  | msgStr (s : String)
deriving Repr, DecidableEq

/-- The `ignore_sqlite_errors` setting: `True`/`False`, or a collection
of exception classes and message-prefix strings. -/
inductive IgnoreCfg where
  | flag (b : Bool)
  | coll (elems : List IgnoreElem)
deriving Repr, DecidableEq

/-- Python truthiness of the setting (`False` and an empty collection
are falsy). -/
def cfgTruthy : IgnoreCfg → Bool
  | .flag b => b
  | .coll es => !es.isEmpty

/-- `instance.ignore_sqlite_errors is True`. -/
def cfgIsTrue : IgnoreCfg → Bool
  | .flag b => b
  | .coll _ => false

/-- `type(e) in instance.ignore_sqlite_errors` (exact class membership;
only reached when the setting is a collection). -/
def kindMem (cfg : IgnoreCfg) (e : SqliteErr) : Bool :=
  match cfg with
  | .flag _ => false
  | .coll es =>
    es.any (fun el =>
      match el with
      | .excClass n => n == e.kind
      | .msgStr _ => false)

/-- Outcome of scanning
`any(error_str.startswith(x) for x in collection)`: a match, no match,
or the `TypeError` Python raises when `startswith` receives an
exception class instead of a string. -/
inductive ScanResult where
  | matched
  | nomatch
  | typeErr
deriving Repr, DecidableEq

/-- The scan itself, in collection order; it stops at the first
matching prefix, and dies with `TypeError` at the first non-string
element it reaches. -/
def scanStartswith (es : List IgnoreElem) (msg : String) : ScanResult :=
  match es with
  | [] => .nomatch
  | .msgStr p :: rest =>
    if strStartsWith msg p then .matched else scanStartswith rest msg
  | .excClass _ :: _ => .typeErr

/-- What a call wrapped by `catch_sqlite_errors` produces: a value, a
swallowed error (the wrapper returns `None`), a re-raised sqlite error,
or the `TypeError` escaping the prefix scan. -/
inductive PyOutcome (α : Type) where
  | ok (a : α)
  | swallowed
  | raised (e : SqliteErr)
  | typeError
deriving Repr

/-- Boolean equality on outcomes. -/
def pyOutcomeBeq [DecidableEq α] : PyOutcome α → PyOutcome α → Bool
  | .ok a, .ok b => decide (a = b)
  | .swallowed, .swallowed => true
  | .raised e1, .raised e2 => decide (e1 = e2)
  | .typeError, .typeError => true
  | _, _ => false

theorem pyOutcomeBeq_eq [DecidableEq α] (a b : PyOutcome α)
    (h : pyOutcomeBeq a b = true) : a = b := by
  cases a <;> cases b <;> simp_all [pyOutcomeBeq]

theorem pyOutcomeBeq_refl [DecidableEq α] (a : PyOutcome α) :
    pyOutcomeBeq a a = true := by
  cases a <;> simp [pyOutcomeBeq]

instance [DecidableEq α] : DecidableEq (PyOutcome α) := fun a b =>
  decidable_of_iff (pyOutcomeBeq a b = true)
    ⟨pyOutcomeBeq_eq a b, fun h => h ▸ pyOutcomeBeq_refl a⟩

/-- The decorator `catch_sqlite_errors`, applied to a call that either
returned a value or raised a `SqliteError`: a raised error is swallowed
(the wrapper returns `None`) when the setting is truthy and is `True`,
or contains the error's exact class, or — when `str(e)` is non-empty —
the prefix scan over the collection finds a matching string before
hitting a class element (hitting one raises `TypeError`); every other
error is re-raised. -/
def catch_sqlite_errors (cfg : IgnoreCfg) (r : Except SqliteErr α) :
    PyOutcome α :=
  match r with
  | .ok a => .ok a
  | .error e =>
    if cfgTruthy cfg then
      if cfgIsTrue cfg then .swallowed
      else if kindMem cfg e then .swallowed
      else if e.msg = "" then .raised e
      else
        match cfg with
        | .flag _ => .raised e
        | .coll es =>
          match scanStartswith es e.msg with
          | .matched => .swallowed
          | .nomatch => .raised e
          | .typeErr => .typeError
    else .raised e

/-- The default `ignore_sqlite_errors` value
`{"UNIQUE constraint failed"}`. -/
def defaultIgnoreCfg : IgnoreCfg :=
  .coll [.msgStr "UNIQUE constraint failed"]

/-- A SQL statement together with its bound values, kept structured
(the source renders these as f-strings; the structured form carries the
very same table / columns / values, and select statements additionally
carry their rendered SQL text for the contract check). An insert
remembers the index of the column the create-table recursion declared
`PRIMARY KEY` (when the primary-key field fell into the scalar branch
of `recusive_create_table_queries`), since that constraint is what
makes re-insertion fail. -/
inductive Stmt where
  | insertS (table : String) (cols : List String) (vals : List Cell)
      (pkIdx : Option Nat)
  | deleteS (table : String) (pkCol : String) (pkIdx : Nat) (v : Cell)
  | selectS (sql : String) (vals : List Cell)
deriving Repr, DecidableEq

/-- Whether a field falls into the final `else` branch of
`recusive_create_table_queries` — the only branch that can append
`PRIMARY KEY` to the column definition. -/
def inCreateScalarBranch : SFieldType → Bool
  | (SType.modelT _ _, _) => false
  | (SType.sequenceT, _) => false
  | (SType.mappingT, some (.inr _)) => false
  | _ => true

/-- The index of the column that carries the `PRIMARY KEY` constraint
in the table created for this schema, if any. -/
def pkConstraintIdx (sch : SQLDanticSchema) : Option Nat :=
  match sch.sqldantic_fields.findIdx? (fun p => p.1 == sch.primary_key) with
  | none => none
  | some i =>
    match sch.sqldantic_fields[i]? with
    | some (_, ft) => if inCreateScalarBranch ft then some i else none
    | none => none

/-- The relational store: rows per table, in insertion order. -/
def DB := String → List (List Cell)

/-- The store of a fresh database file. -/
def emptyDB : DB := fun _ => []

/-- Appending one row to one table. -/
def dbInsertRow (db : DB) (t : String) (r : List Cell) : DB :=
  fun u => if u = t then db t ++ [r] else db u

/-- Decimal digit value of a character. -/
def decDigit? (c : Char) : Option Nat :=
  if '0' ≤ c ∧ c ≤ '9' then some (c.toNat - '0'.toNat) else none

/-- Parse a non-empty all-digit character list. -/
def digitsToNatAux : List Char → Nat → Option Nat
  | [], acc => some acc
  | c :: rest, acc =>
    match decDigit? c with
    | some d => digitsToNatAux rest (acc * 10 + d)
    | none => none

/-- Decimal integer parsing (the conversion SQLite applies when
comparing numeric text against an INTEGER column). -/
def strToInt? (s : String) : Option Int :=
  match s.data with
  | [] => none
  | '-' :: rest =>
    if rest.isEmpty then none
    else (digitsToNatAux rest 0).map (fun n => -(n : Int))
  | l => (digitsToNatAux l 0).map (fun n => (n : Int))

/-- SQLite comparison between a stored cell and a bound parameter,
including the numeric-affinity conversion that makes the text `"5"`
compare equal to the stored integer `5` in an INTEGER column. -/
def cellMatch : Cell → Cell → Bool
  | .ctext s, .cint n => strToInt? s == some n
  | .cint n, .ctext s => strToInt? s == some n
  | a, b => cellBeq a b

/-- The `sqlite3.IntegrityError` raised on a uniqueness violation. -/
def uniqueErrFor (t col : String) : SqliteErr :=
  { kind := "IntegrityError"
    msg := "UNIQUE constraint failed: " ++ t ++ "." ++ col }

/-- SQLite execution of one statement. An INSERT into a table whose
PRIMARY KEY column already holds the new row's key raises the
uniqueness violation; a DELETE removes exactly the rows whose key
column matches the bound value; a SELECT leaves the store unchanged. -/
def rawExec (db : DB) : Stmt → Except SqliteErr DB
  | .insertS t cols vals pkIdx? =>
    match pkIdx? with
    | some i =>
      if (db t).any (fun r => cellMatch (r.getD i .cnull) (vals.getD i .cnull)) then
        .error (uniqueErrFor t (cols.getD i ""))
      else .ok (dbInsertRow db t vals)
    | none => .ok (dbInsertRow db t vals)
  | .deleteS t _ i v =>
    .ok (fun u =>
      if u = t then (db t).filter (fun r => !(cellMatch (r.getD i .cnull) v))
      else db u)
  | .selectS _ _ => .ok db

/-- `BaseDB.execute_and_commit` (decorated with `catch_sqlite_errors`). -/
def execute_and_commit (cfg : IgnoreCfg) (db : DB) (s : Stmt) : PyOutcome DB :=
  catch_sqlite_errors cfg (rawExec db s)

/-- `BaseDB.execute_queries` (without `remove_duplicates`): execute and
commit the statements one at a time, in emission order; a swallowed
error leaves the store unchanged and the loop continues; an uncaught
exception aborts the loop and propagates. -/
def execute_queries (cfg : IgnoreCfg) (db : DB) : List Stmt → PyOutcome DB
  | [] => .ok db
  | s :: rest =>
    match execute_and_commit cfg db s with
    | .ok db2 => execute_queries cfg db2 rest
    | .swallowed => execute_queries cfg db rest
    | .raised e => .raised e
    | .typeError => .typeError

/-- Python `getattr(instance, field_name)` on a model instance. -/
def getattrPy (v : PyVal) (f : String) : Option PyVal :=
  match v with
  | .vobj ty vals => ((ty.fields.map Prod.fst).zip vals).lookup f
  | _ => none

/-- The `primary_key` of the schema a recursive walker call returned
(`""` stands for the `AttributeError` Python would raise afterwards;
it never occurs for well-formed entities). -/
def childPkName : Option SQLDanticSchema → String
  | some sch => sch.primary_key
  | none => ""

/-- The type of `query_facory` callables handed to the write walker. -/
abbrev QueryFactory := SQLDanticSchema → List (String × Cell) → Stmt

/-- `BaseDB.insert_query_factory`:
`INSERT INTO table (cols…) VALUES (?…)` over every entry of the
flattened field map, in order. -/
def insert_query_factory (sch : SQLDanticSchema)
    (model_dict : List (String × Cell)) : Stmt :=
  .insertS sch.table_name (model_dict.map Prod.fst) (model_dict.map Prod.snd)
    (pkConstraintIdx sch)

mutual

/-- `BaseDB.recursive_modify_table_queries`: derive the schema, walk
the fields in declared order (recursively emitting every nested
entity's statements on the way), then emit the statement the factory
builds from the flattened field map. Returns the emitted statements in
order together with the schema (the Python generator's `return`
value). -/
def recursive_modify_table_queries (fac : QueryFactory) :
    PyVal → List Stmt × Option SQLDanticSchema
  | .vobj ty vals =>
    match schemaOf ty with
    | none => ([], none)
    | some sch =>
      let sd := modifyFields fac sch.sqldantic_fields vals
      (sd.1 ++ [fac sch sd.2], some sch)
  | _ => ([], none)

/-- The field loop of `recursive_modify_table_queries`: for each field
in declared order, the statements emitted for its nested entities and
the flattened cell stored in the `model_dict`, following the source's
branch chain (`None` / entity / sequence / mapping / unknown /
scalar). -/
def modifyFields (fac : QueryFactory) :
    List (String × SFieldType) → List PyVal → List Stmt × List (String × Cell)
  | [], _ => ([], [])
  | _ :: _, [] => ([], [])
  | (fname, ft) :: flds, value :: vs =>
    let cur : List Stmt × Cell :=
      if value = PyVal.vnone then ([], .cnull)
      else
        match ft with
        | (SType.modelT _ _, _) =>
          let r := recursive_modify_table_queries fac value
          (r.1, .ctext (pyToStr ((getattrPy value (childPkName r.2)).getD .vnone)))
        | (SType.sequenceT, it) =>
          match it with
          | some (.inl (SType.modelT _ _)) =>
            match value with
            | .vlist items =>
              let r := modifySeqItems fac items
              (r.1, .ctext (pyJoin (r.2.map pyToStr)))
            | _ => ([], .cnull)
          | _ =>
            match value with
            | .vlist items => ([], .ctext (pyJoin (items.map pyToStr)))
            | _ => ([], .cnull)
        | (SType.mappingT, it) =>
          match it with
          | some (.inr (_, vt)) =>
            match vt with
            | SType.modelT _ _ =>
              match value with
              | .vdict kvs =>
                let r := modifyMapVals fac kvs
                (r.1, .cjson (.vdict r.2))
              | _ => ([], .cnull)
            | _ => ([], .cjson value)
          | _ => ([], .cnull)
        | (SType.unknown, it) =>
          match it with
          | some (.inl (SType.modelT _ _)) =>
            let r := recursive_modify_table_queries fac value
            (r.1, toCell ((getattrPy value (childPkName r.2)).getD .vnone))
          | _ => ([], .cjson value)
        | _ => ([], toCell value)
    let rest := modifyFields fac flds vs
    (cur.1 ++ rest.1, (fname, cur.2) :: rest.2)

/-- The sequence-of-entities loop: persist each element, collect its
primary-key value. -/
def modifySeqItems (fac : QueryFactory) :
    List PyVal → List Stmt × List PyVal
  | [] => ([], [])
  | item :: rest =>
    let r := recursive_modify_table_queries fac item
    let pk := (getattrPy item (childPkName r.2)).getD .vnone
    let rr := modifySeqItems fac rest
    (r.1 ++ rr.1, pk :: rr.2)

/-- The mapping-with-entity-values loop: persist each value, map the
key to the value's primary key. -/
def modifyMapVals (fac : QueryFactory) :
    List (String × PyVal) → List Stmt × List (String × PyVal)
  | [] => ([], [])
  | (k, v) :: rest =>
    let r := recursive_modify_table_queries fac v
    let pk := (getattrPy v (childPkName r.2)).getD .vnone
    let rr := modifyMapVals fac rest
    (r.1 ++ rr.1, (k, pk) :: rr.2)

end

/-- `BaseDB.insert_model`: generate the insert statement sequence and
execute it. -/
def insert_model (cfg : IgnoreCfg) (db : DB) (v : PyVal) : PyOutcome DB :=
  execute_queries cfg db (recursive_modify_table_queries insert_query_factory v).1

/-- The single statement `BaseDB.delete_model` builds directly:
`DELETE FROM table WHERE pk = ?` bound to the entity's own primary-key
value (an empty result models the `ValueError`/`AttributeError` paths
that never occur for well-formed entities). -/
def delete_model_queries (v : PyVal) : List Stmt :=
  match v with
  | .vobj ty _ =>
    match schemaOf ty with
    | none => []
    | some sch =>
      match getattrPy v sch.primary_key with
      | none => []
      | some pkv =>
        match sch.sqldantic_fields.findIdx? (fun p => p.1 == sch.primary_key) with
        | none => []
        | some i => [.deleteS sch.table_name sch.primary_key i (toCell pkv)]
  | _ => []

/-- `BaseDB.delete_model`. -/
def delete_model (cfg : IgnoreCfg) (db : DB) (v : PyVal) : PyOutcome DB :=
  execute_queries cfg db (delete_model_queries v)

example :
    (recursive_modify_table_queries insert_query_factory
      (.vobj ⟨"A", [("id", .pyStr)]⟩ [.vstr "x"])).1 =
    [.insertS "as" ["id"] [.ctext "x"] (some 0)] := by decide

/-- The Python exceptions the read path can raise: the schema
`ValueError` (no table name / primary key), the select-factory contract
`ValueError`, the `NameError` on the unassigned `val_is_basemodel`, the
`ValueError` of hydrating mapping keys via a category literal,
`TypeError` / `json.JSONDecodeError` on malformed cells, an uncaught
`StopIteration`, an `IndexError` on a short row, and fuel exhaustion
(an artifact of the embedding: recursion depth is bounded by an
explicit budget, large enough in every theorem below). -/
inductive HErr where
  | configError
  | badSelectFactory
  | nameError
  | valueError
  | typeErr
  | jsonError
  | stopIteration
  | indexError
  | outOfFuel
deriving Repr, DecidableEq

/-- `query.count("?")`. -/
def countQMarks (s : String) : Nat :=
  s.data.countP (fun c => c == '?')

/-- `", ".join("?" for _ in args)`. -/
def questionMarks : Nat → String
  | 0 => ""
  | 1 => "?"
  | n + 2 => "?, " ++ questionMarks (n + 1)

/-- What a select-query factory returns: the rendered SQL text, the
bound values, and the rows the statement produces on a store (the
semantics of the SQL text; factories below construct both
consistently). -/
structure SelectSem where
  sql : String
  vals : List Cell
  rows : DB → List (List Cell)

/-- The type of select-query factories. -/
abbrev SelectFactory := SQLDanticSchema → List Cell → SelectSem

/-- An executed statement, as logged: its SQL text and bound values. -/
abbrev LogEntry := String × List Cell

/-- The nested-hydration callback threaded through the row walk. -/
abbrev NestedHyd := ModelTy → List Cell → List LogEntry × Except HErr (List PyVal)

/-- `BaseDB.primary_key_select_query_factory`:
`SELECT * FROM table WHERE pk IN (?…)`, or all rows when no keys are
given; its result rows are the table's rows whose primary-key column
matches one of the bound keys, in table order. -/
def primary_key_select_query_factory (sch : SQLDanticSchema)
    (args : List Cell) : SelectSem :=
  let pkIdx := (sch.sqldantic_fields.findIdx? (fun p => p.1 == sch.primary_key)).getD 0
  let condition_clause :=
    if args.isEmpty then ""
    else "WHERE " ++ sch.primary_key ++ " IN (" ++ questionMarks args.length ++ ")"
  { sql := "SELECT * FROM " ++ sch.table_name ++ " " ++ condition_clause
    vals := args
    rows := fun db =>
      if args.isEmpty then db sch.table_name
      else
        (db sch.table_name).filter
          (fun r => args.any (fun a => cellMatch (r.getD pkIdx .cnull) a)) }

/-- One iteration of the column walk of `BaseDB.iter_models`: the
nested statements it executed, the hydrated value (or the raised
exception), and the resulting binding state of the function-scoped
`val_is_basemodel` variable. The mapping branch follows the source's
slip: `key_is_basemodel := is_base_model(val_type)` tests the *value*
category, and when it is an entity the `or` short-circuits past the
walrus that would bind `val_is_basemodel`, so reading that name raises
`NameError` on a fresh frame (with a stale binding the lazily built
keys generator is forced instead, and deriving a schema for the key
category literal raises `ValueError`). -/
def hydrateField (hyd : NestedHyd) (ft : SFieldType) (c : Cell)
    (st : Option Bool) :
    (List LogEntry × Except HErr PyVal) × Option Bool :=
  if c = Cell.cnull then (([], .ok .vnone), st)
  else
    match ft with
    | (SType.modelT n fs, _) =>
      match hyd ⟨n, fs⟩ [c] with
      | (log, .ok objs) => ((log, .ok (objs.head?.getD .vnone)), st)
      | (log, .error e) => ((log, .error e), st)
    | (SType.sequenceT, it) =>
      match c with
      | .ctext s =>
        let parts := pySplit s
        match it with
        | some (.inl (SType.modelT n fs)) =>
          match hyd ⟨n, fs⟩ (parts.map Cell.ctext) with
          | (log, .ok objs) => ((log, .ok (.vlist objs)), st)
          | (log, .error e) => ((log, .error e), st)
        | _ => (([], .ok (.vlist (parts.map PyVal.vstr))), st)
      | _ => (([], .error .typeErr), st)
    | (SType.mappingT, it) =>
      match it with
      | some (.inr (_, vt)) =>
        match c with
        | .cjson mv =>
          match vt with
          | SType.modelT _ _ =>
            match st with
            | none => (([], .error .nameError), st)
            | some _ => (([], .error .valueError), st)
          | _ => (([], .ok mv), some false)
        | .ctext _ => (([], .error .jsonError), st)
        | _ => (([], .error .typeErr), st)
      | _ => (([], .ok (cellToPy c)), st)
    | (SType.unknown, it) =>
      match it with
      | some (.inl (SType.modelT n fs)) =>
        match hyd ⟨n, fs⟩ [c] with
        | (log, .ok objs) =>
          match objs.head? with
          | some o => ((log, .ok o), st)
          | none => ((log, .error .stopIteration), st)
        | (log, .error e) => ((log, .error e), st)
      | _ =>
        match c with
        | .cjson v => (([], .ok v), st)
        | .ctext _ => (([], .error .jsonError), st)
        | _ => (([], .error .typeErr), st)
    | _ => (([], .ok (cellToPy c)), st)

/-- The column loop of `BaseDB.iter_models` over one fetched row,
threading the `val_is_basemodel` binding state. -/
def hydrateRow (hyd : NestedHyd) :
    List (String × SFieldType) → List Cell → Option Bool →
    List LogEntry × Except HErr (List PyVal) × Option Bool
  | [], _, st => ([], .ok [], st)
  | _ :: _, [], st => ([], .error .indexError, st)
  | (_, ft) :: flds, c :: cs, st =>
    match hydrateField hyd ft c st with
    | ((log, .error e), st2) => (log, .error e, st2)
    | ((log, .ok v), st2) =>
      match hydrateRow hyd flds cs st2 with
      | (log2, .ok vs, st3) => (log ++ log2, .ok (v :: vs), st3)
      | (log2, .error e, st3) => (log ++ log2, .error e, st3)

/-- The row loop of `BaseDB.iter_models`: one constructed model
instance per fetched row. -/
def hydrateRows (hyd : NestedHyd) (m : ModelTy)
    (flds : List (String × SFieldType)) :
    List (List Cell) → Option Bool → List LogEntry × Except HErr (List PyVal)
  | [], _ => ([], .ok [])
  | row :: rest, st =>
    match hydrateRow hyd flds row st with
    | (log, .error e, _) => (log, .error e)
    | (log, .ok vals, st2) =>
      match hydrateRows hyd m flds rest st2 with
      | (log2, .ok objs) => (log ++ log2, .ok (.vobj m vals :: objs))
      | (log2, .error e) => (log ++ log2, .error e)

/-- `BaseDB.iter_models` (materialized): derive the schema, build the
select through the factory, enforce the SELECT/placeholder contract
*before* executing anything, then execute the select and walk the
fetched rows, recursively hydrating nested entities (at one fuel step
less). Returns the log of executed statements alongside the result. -/
def iter_models (fac : SelectFactory) (db : DB) :
    Nat → ModelTy → List Cell → List LogEntry × Except HErr (List PyVal)
  | 0, _, _ => ([], .error .outOfFuel)
  | fuel + 1, m, args =>
    match schemaOf m with
    | none => ([], .error .configError)
    | some sch =>
      let sq := fac sch args
      if !strStartsWith sq.sql "SELECT" || countQMarks sq.sql != sq.vals.length then
        ([], .error .badSelectFactory)
      else
        match hydrateRows (fun m2 args2 => iter_models fac db fuel m2 args2)
            sch.model sch.sqldantic_fields (sq.rows db) none with
        | (log, r) => ((sq.sql, sq.vals) :: log, r)

/-- `BaseDB.get_model`: the first hydrated instance, or `None`
(`StopIteration` from `next`) when the query matched nothing. -/
def get_model (fac : SelectFactory) (db : DB) (fuel : Nat) (m : ModelTy)
    (args : List Cell) : Except HErr (Option PyVal) :=
  match iter_models fac db fuel m args with
  | (_, .ok objs) => .ok objs.head?
  | (_, .error e) => .error e

/-- `BaseDB.get_models`: the materialized list of hydrated instances. -/
def get_models (fac : SelectFactory) (db : DB) (fuel : Nat) (m : ModelTy)
    (args : List Cell) : Except HErr (List PyVal) :=
  (iter_models fac db fuel m args).2

/-- `BaseDB.get_model_by_primary_key` (default factory). -/
def get_model_by_primary_key (db : DB) (fuel : Nat) (m : ModelTy)
    (args : List Cell) : Except HErr (Option PyVal) :=
  get_model primary_key_select_query_factory db fuel m args

/-- Decidable equality for `Except` results (used to evaluate closed
statements about hydration outcomes). -/
instance [DecidableEq e] [DecidableEq a] : DecidableEq (Except e a) :=
  fun x y =>
    match x, y with
    | .ok u, .ok v =>
      decidable_of_iff (u = v) ⟨fun h => h ▸ rfl, fun h => by cases h; rfl⟩
    | .error u, .error v =>
      decidable_of_iff (u = v) ⟨fun h => h ▸ rfl, fun h => by cases h; rfl⟩
    | .ok _, .error _ => isFalse (fun h => by cases h)
    | .error _, .ok _ => isFalse (fun h => by cases h)


/-- Projection of a successful execution outcome onto the resulting
store (used to state closed facts about concrete runs). -/
def okDB : PyOutcome DB → DB
  | .ok db => db
  | _ => emptyDB

/-- C3: the classifier does not skip null union variants. `get_args`
yields `type(None)` for a null variant, the `arg is None` check never
matches it, and `type(None)` is absent from the default type map, so a
null-first union such as `Union[None, int]` classifies as `UNKNOWN`
(first conjunct) — whereas with the null variant last the `int` branch
is found first and classification is `INTEGER` (second conjunct). The
claim's guarantee that a null variant is never the classification
result when a non-null branch exists therefore fails on the code. -/
theorem c3_null_variant_not_skipped :
    get_sqldantic_type SQLDANTIC_TYPE_MAP (.union [.noneType, .pyInt]) =
      (SType.unknown, none) ∧
    get_sqldantic_type SQLDANTIC_TYPE_MAP (.union [.pyInt, .noneType]) =
      (SType.integer, none) :=
  ⟨by decide, by decide⟩

/-- C9: deriving the schema descriptor for the same model twice under
the same configuration (type map, naming getters, transformers,
primary-key getter) yields the same table name, primary-key field and
field-category map. -/
theorem c9_schema_derivation_deterministic (cfg : SchemaConfig)
    (m : ModelTy) (s1 s2 : SQLDanticSchema)
    (h1 : mkSQLDanticSchema cfg m = some s1)
    (h2 : mkSQLDanticSchema cfg m = some s2) :
    s1.table_name = s2.table_name ∧ s1.primary_key = s2.primary_key ∧
      s1.sqldantic_fields = s2.sqldantic_fields := by
  rw [h1] at h2
  cases h2
  exact ⟨rfl, rfl, rfl⟩

theorem c9_schema_derivation_deterministic_witness :
    ({ model := ⟨"Job", [("id", Ann.pyStr)]⟩, table_name := "jobs",
       primary_key := "id", sqldantic_fields := [("id", (SType.text, none))] }
        : SQLDanticSchema).table_name = "jobs" ∧
    mkSQLDanticSchema defaultSchemaConfig ⟨"Job", [("id", Ann.pyStr)]⟩ =
      some { model := ⟨"Job", [("id", Ann.pyStr)]⟩, table_name := "jobs",
             primary_key := "id",
             sqldantic_fields := [("id", (SType.text, none))] } ∧
    ("jobs" = "jobs" ∧ "id" = "id" ∧
      ([("id", (SType.text, none))] : List (String × SFieldType)) =
        [("id", (SType.text, none))]) :=
  ⟨by decide, by decide,
    c9_schema_derivation_deterministic defaultSchemaConfig
      ⟨"Job", [("id", Ann.pyStr)]⟩
      { model := ⟨"Job", [("id", Ann.pyStr)]⟩, table_name := "jobs",
        primary_key := "id", sqldantic_fields := [("id", (SType.text, none))] }
      { model := ⟨"Job", [("id", Ann.pyStr)]⟩, table_name := "jobs",
        primary_key := "id", sqldantic_fields := [("id", (SType.text, none))] }
      (by decide) (by decide)⟩

/-- C7: the ignorable-error wrapper. The first conjunct is the policy
working as described on the default configuration: a uniqueness
violation is swallowed. The second conjunct is the divergence: when the
collection holds an exception *class* (sanctioned by the parameter's
type annotation and the source comment "So sqlite exceptions classes
can passed directly"), a non-matching error with a non-empty message
does not propagate unmodified — `str.startswith` receives the class and
raises `TypeError`. The third conjunct shows the further edge that an
error with an empty message is re-raised even when the collection holds
a prefix of it (the empty string). -/
theorem c7_ignore_policy_divergences :
    catch_sqlite_errors defaultIgnoreCfg
        (.error (uniqueErrFor "jobs" "id") : Except SqliteErr Unit) =
      .swallowed ∧
    catch_sqlite_errors (.coll [.excClass "IntegrityError"])
        (.error ⟨"OperationalError", "database is locked"⟩
          : Except SqliteErr Unit) =
      .typeError ∧
    catch_sqlite_errors (.coll [.msgStr ""])
        (.error ⟨"OperationalError", ""⟩ : Except SqliteErr Unit) =
      .raised ⟨"OperationalError", ""⟩ :=
  ⟨by decide, by decide, by decide⟩

/-- C6: mapping fields with entity values. The write path behaves as
specified: the stored cell is the JSON-encoded mapping with the entity
value replaced by its primary key, and the nested entity's own row is
persisted (first two conjuncts). The read path does not reconstruct the
mapping: `key_is_basemodel := is_base_model(val_type)` tests the value
category, the `or` short-circuits past the walrus binding of
`val_is_basemodel`, and reading that name raises `NameError` (third
conjunct). -/
theorem c6_mapping_entity_values_read_path_crashes :
    okDB (insert_model defaultIgnoreCfg emptyDB
        (.vobj ⟨"M", [("id", .pyStr),
            ("kv", .mapOf [.pyStr, .model "C" [("id", .pyStr)]])]⟩
          [.vstr "m1", .vdict [("k", .vobj ⟨"C", [("id", .pyStr)]⟩ [.vstr "c1"])]]))
      "ms" =
      [[.ctext "m1", .cjson (.vdict [("k", .vstr "c1")])]] ∧
    okDB (insert_model defaultIgnoreCfg emptyDB
        (.vobj ⟨"M", [("id", .pyStr),
            ("kv", .mapOf [.pyStr, .model "C" [("id", .pyStr)]])]⟩
          [.vstr "m1", .vdict [("k", .vobj ⟨"C", [("id", .pyStr)]⟩ [.vstr "c1"])]]))
      "cs" =
      [[.ctext "c1"]] ∧
    get_model_by_primary_key
      (okDB (insert_model defaultIgnoreCfg emptyDB
        (.vobj ⟨"M", [("id", .pyStr),
            ("kv", .mapOf [.pyStr, .model "C" [("id", .pyStr)]])]⟩
          [.vstr "m1", .vdict [("k", .vobj ⟨"C", [("id", .pyStr)]⟩ [.vstr "c1"])]])))
      9 ⟨"M", [("id", .pyStr), ("kv", .mapOf [.pyStr, .model "C" [("id", .pyStr)]])]⟩
      [.ctext "m1"] =
      .error .nameError :=
  ⟨by decide, by decide, by decide⟩

/-- C10: hydration of a Sequence-of-scalars column always produces a
non-empty list, because `str.split` never returns an empty list and
splitting the empty string yields `[""]`; an entity persisted with an
empty scalar sequence therefore hydrates with that field equal to
`[""]` (final conjunct: the full pipeline on such an entity). -/
theorem c10_empty_sequence_hydrates_to_singleton :
    (∀ s : String, pySplit s ≠ []) ∧
    pySplit "" = [""] ∧
    okDB (insert_model defaultIgnoreCfg emptyDB
        (.vobj ⟨"A", [("id", .pyStr), ("tags", .seqOf [.pyStr])]⟩
          [.vstr "x", .vlist []])) "as" =
      [[.ctext "x", .ctext ""]] ∧
    get_model_by_primary_key
      (okDB (insert_model defaultIgnoreCfg emptyDB
        (.vobj ⟨"A", [("id", .pyStr), ("tags", .seqOf [.pyStr])]⟩
          [.vstr "x", .vlist []])))
      9 ⟨"A", [("id", .pyStr), ("tags", .seqOf [.pyStr])]⟩ [.ctext "x"] =
      .ok (some (.vobj ⟨"A", [("id", .pyStr), ("tags", .seqOf [.pyStr])]⟩
        [.vstr "x", .vlist [.vstr ""]])) :=
  ⟨pySplit_ne_nil, by decide, by decide, by decide⟩

/-- C4: the select-factory contract is enforced before execution. When
the factory's statement does not start with `SELECT`, or its
placeholder count differs from the length of its value tuple,
`iter_models` raises the contract `ValueError` with an *empty*
execution log — no statement reaches the store — and `get_model` /
`get_models` propagate the same error. -/
theorem c4_select_contract_checked_before_execution
    (fac : SelectFactory) (db : DB) (fuel : Nat) (m : ModelTy)
    (args : List Cell) (sch : SQLDanticSchema)
    (hs : schemaOf m = some sch)
    (hbad : strStartsWith (fac sch args).sql "SELECT" = false ∨
            countQMarks (fac sch args).sql ≠ (fac sch args).vals.length) :
    iter_models fac db (fuel + 1) m args = ([], .error .badSelectFactory) ∧
    get_model fac db (fuel + 1) m args = .error .badSelectFactory ∧
    get_models fac db (fuel + 1) m args = .error .badSelectFactory := by
  have hif : (!strStartsWith (fac sch args).sql "SELECT" ||
      countQMarks (fac sch args).sql != (fac sch args).vals.length) = true := by
    rcases hbad with h | h
    · simp [h]
    · simp [bne_iff_ne, h]
  have key : iter_models fac db (fuel + 1) m args =
      ([], .error .badSelectFactory) := by
    unfold iter_models
    rw [hs]
    simp only [hif, if_true]
  refine ⟨key, ?_, ?_⟩
  · unfold get_model
    rw [key]
  · unfold get_models
    rw [key]

theorem c4_select_contract_witness :
    iter_models (fun _ _ => ⟨"DROP TABLE jobs", [], fun _ => []⟩)
      emptyDB 1 ⟨"A", [("id", Ann.pyStr)]⟩ [] =
      ([], .error .badSelectFactory) ∧
    get_model (fun _ _ => ⟨"DROP TABLE jobs", [], fun _ => []⟩)
      emptyDB 1 ⟨"A", [("id", Ann.pyStr)]⟩ [] = .error .badSelectFactory ∧
    get_models (fun _ _ => ⟨"DROP TABLE jobs", [], fun _ => []⟩)
      emptyDB 1 ⟨"A", [("id", Ann.pyStr)]⟩ [] = .error .badSelectFactory :=
  c4_select_contract_checked_before_execution
    (fun _ _ => ⟨"DROP TABLE jobs", [], fun _ => []⟩) emptyDB 0
    ⟨"A", [("id", Ann.pyStr)]⟩ []
    { model := ⟨"A", [("id", Ann.pyStr)]⟩, table_name := "as",
      primary_key := "id", sqldantic_fields := [("id", (SType.text, none))] }
    (by decide) (.inl (by decide))

/-- C8: `delete_model` builds exactly one DELETE statement, conditioned
on the entity's primary key against its own table; executing it leaves
every other table unchanged and removes from the entity's table exactly
the rows whose key column matches — rows with other keys and all
referenced/nested tables are untouched (no cascade). -/
theorem c8_delete_single_statement_no_cascade
    (cfg : IgnoreCfg) (db : DB) (v : PyVal) (ty : ModelTy)
    (vals : List PyVal) (sch : SQLDanticSchema) (pkv : PyVal) (i : Nat)
    (hv : v = .vobj ty vals)
    (hs : schemaOf ty = some sch)
    (hpk : getattrPy v sch.primary_key = some pkv)
    (hi : sch.sqldantic_fields.findIdx? (fun p => p.1 == sch.primary_key) =
      some i) :
    delete_model_queries v =
      [.deleteS sch.table_name sch.primary_key i (toCell pkv)] ∧
    (∀ t, t ≠ sch.table_name → okDB (delete_model cfg db v) t = db t) ∧
    okDB (delete_model cfg db v) sch.table_name =
      (db sch.table_name).filter
        (fun r => !(cellMatch (r.getD i .cnull) (toCell pkv))) := by
  subst hv
  have hq : delete_model_queries (.vobj ty vals) =
      [.deleteS sch.table_name sch.primary_key i (toCell pkv)] := by
    simp only [delete_model_queries, hs, hpk, hi]
  have hd : delete_model cfg db (.vobj ty vals) =
      .ok (fun u =>
        if u = sch.table_name then
          (db sch.table_name).filter
            (fun r => !(cellMatch (r.getD i .cnull) (toCell pkv)))
        else db u) := by
    unfold delete_model
    rw [hq]
    rfl
  refine ⟨hq, ?_, ?_⟩
  · intro t ht
    rw [hd]
    simp [okDB, ht]
  · rw [hd]
    simp [okDB]

theorem c8_delete_witness :
    delete_model_queries (.vobj ⟨"A", [("id", Ann.pyStr)]⟩ [.vstr "a1"]) =
      [.deleteS "as" "id" 0 (.ctext "a1")] ∧
    okDB (delete_model defaultIgnoreCfg
        (fun t => if t = "bs" then [[Cell.ctext "b1"]]
          else if t = "as" then [[Cell.ctext "a1"], [Cell.ctext "a2"]] else [])
        (.vobj ⟨"A", [("id", Ann.pyStr)]⟩ [.vstr "a1"])) "bs" =
      [[Cell.ctext "b1"]] ∧
    okDB (delete_model defaultIgnoreCfg
        (fun t => if t = "bs" then [[Cell.ctext "b1"]]
          else if t = "as" then [[Cell.ctext "a1"], [Cell.ctext "a2"]] else [])
        (.vobj ⟨"A", [("id", Ann.pyStr)]⟩ [.vstr "a1"])) "as" =
      [[Cell.ctext "a2"]] := by
  have h := c8_delete_single_statement_no_cascade defaultIgnoreCfg
    (fun t => if t = "bs" then [[Cell.ctext "b1"]]
      else if t = "as" then [[Cell.ctext "a1"], [Cell.ctext "a2"]] else [])
    (.vobj ⟨"A", [("id", Ann.pyStr)]⟩ [.vstr "a1"])
    ⟨"A", [("id", Ann.pyStr)]⟩ [.vstr "a1"]
    { model := ⟨"A", [("id", Ann.pyStr)]⟩, table_name := "as",
      primary_key := "id", sqldantic_fields := [("id", (SType.text, none))] }
    (.vstr "a1") 0 rfl (by decide) (by decide) (by decide)
  exact ⟨h.1, (h.2.1 "bs" (by decide)).trans (by decide),
    h.2.2.trans (by decide)⟩

/-- The schema the walker's recursive call on a value returns. -/
def schemaOfVal (v : PyVal) : Option SQLDanticSchema :=
  match v with
  | .vobj ty _ => schemaOf ty
  | _ => none

theorem recursive_modify_snd (fac : QueryFactory) (v : PyVal) :
    (recursive_modify_table_queries fac v).2 = schemaOfVal v := by
  cases v with
  | vobj ty vals =>
    simp only [recursive_modify_table_queries, schemaOfVal]
    cases schemaOf ty <;> simp
  | vnone => rfl
  | vstr s => rfl
  | vint n => rfl
  | vlist xs => rfl
  | vdict kvs => rfl

/-- The primary-key value the walker reads off a nested entity
(`getattr(value, child_schema.primary_key)`). -/
def childPkVal (v : PyVal) : PyVal :=
  (getattrPy v (childPkName (schemaOfVal v))).getD .vnone

/-- The flattened cell the write path stores for one field
(specification mirror of the walker's field branch). -/
def fieldCell (ft : SFieldType) (value : PyVal) : Cell :=
  if value = PyVal.vnone then .cnull
  else
    match ft with
    | (SType.modelT _ _, _) => .ctext (pyToStr (childPkVal value))
    | (SType.sequenceT, it) =>
      match it with
      | some (.inl (SType.modelT _ _)) =>
        match value with
        | .vlist items => .ctext (pyJoin ((items.map childPkVal).map pyToStr))
        | _ => .cnull
      | _ =>
        match value with
        | .vlist items => .ctext (pyJoin (items.map pyToStr))
        | _ => .cnull
    | (SType.mappingT, it) =>
      match it with
      | some (.inr (_, vt)) =>
        match vt with
        | SType.modelT _ _ =>
          match value with
          | .vdict kvs =>
            .cjson (.vdict (kvs.map (fun kv => (kv.1, childPkVal kv.2))))
          | _ => .cnull
        | _ => .cjson value
      | _ => .cnull
    | (SType.unknown, it) =>
      match it with
      | some (.inl (SType.modelT _ _)) => toCell (childPkVal value)
      | _ => .cjson value
    | _ => toCell value

/-- The nested entities the write path recurses into for one field, in
recursion order. -/
def fieldChildren (ft : SFieldType) (value : PyVal) : List PyVal :=
  if value = PyVal.vnone then []
  else
    match ft with
    | (SType.modelT _ _, _) => [value]
    | (SType.sequenceT, it) =>
      match it with
      | some (.inl (SType.modelT _ _)) =>
        match value with
        | .vlist items => items
        | _ => []
      | _ => []
    | (SType.mappingT, it) =>
      match it with
      | some (.inr (_, vt)) =>
        match vt with
        | SType.modelT _ _ =>
          match value with
          | .vdict kvs => kvs.map Prod.snd
          | _ => []
        | _ => []
      | _ => []
    | (SType.unknown, it) =>
      match it with
      | some (.inl (SType.modelT _ _)) => [value]
      | _ => []
    | _ => []

/-- The flattened `model_dict` of an instance, field by field. -/
def rowDict : List (String × SFieldType) → List PyVal → List (String × Cell)
  | [], _ => []
  | _ :: _, [] => []
  | (fname, ft) :: flds, value :: vs =>
    (fname, fieldCell ft value) :: rowDict flds vs

/-- Every nested entity the field walk recurses into, in order. -/
def childrenOfFields :
    List (String × SFieldType) → List PyVal → List PyVal
  | [], _ => []
  | _ :: _, [] => []
  | (_, ft) :: flds, value :: vs =>
    fieldChildren ft value ++ childrenOfFields flds vs

/-- The direct nested entities of an instance (entity-reference field
values, sequence-of-entity elements, mapping entity values), in the
order the write walker visits them. -/
def directChildren (v : PyVal) : List PyVal :=
  match v with
  | .vobj ty vals =>
    match schemaOf ty with
    | none => []
    | some sch => childrenOfFields sch.sqldantic_fields vals
  | _ => []

/-- Concatenation of the statements the walker emits for each value of
a list. -/
def childStmts (fac : QueryFactory) : List PyVal → List Stmt
  | [] => []
  | c :: cs => (recursive_modify_table_queries fac c).1 ++ childStmts fac cs

theorem childStmts_append (fac : QueryFactory) (a b : List PyVal) :
    childStmts fac (a ++ b) = childStmts fac a ++ childStmts fac b := by
  induction a with
  | nil => rfl
  | cons c cs ih => simp [childStmts, ih]

theorem modifySeqItems_eq (fac : QueryFactory) (items : List PyVal) :
    modifySeqItems fac items =
      (childStmts fac items, items.map childPkVal) := by
  induction items with
  | nil => rfl
  | cons item rest ih =>
    simp only [modifySeqItems, ih, childStmts, List.map_cons,
      recursive_modify_snd, childPkVal]

theorem modifyMapVals_eq (fac : QueryFactory)
    (kvs : List (String × PyVal)) :
    modifyMapVals fac kvs =
      (childStmts fac (kvs.map Prod.snd),
       kvs.map (fun kv => (kv.1, childPkVal kv.2))) := by
  induction kvs with
  | nil => rfl
  | cons kv rest ih =>
    obtain ⟨k, v⟩ := kv
    simp only [modifyMapVals, ih, childStmts, List.map_cons,
      recursive_modify_snd, childPkVal]

theorem modifyFields_eq (fac : QueryFactory)
    (flds : List (String × SFieldType)) (vals : List PyVal) :
    modifyFields fac flds vals =
      (childStmts fac (childrenOfFields flds vals), rowDict flds vals) := by
  induction flds generalizing vals with
  | nil => cases vals <;> rfl
  | cons fld flds ih =>
    obtain ⟨fname, st, it⟩ := fld
    cases vals with
    | nil => rfl
    | cons value vs =>
      by_cases hv : value = PyVal.vnone
      · subst hv
        simp [modifyFields, childrenOfFields, rowDict, ih, fieldChildren,
          fieldCell, childStmts]
      · cases st <;>
          (try (simp [modifyFields, childrenOfFields, rowDict, ih,
            childStmts_append, fieldChildren, fieldCell, hv, childStmts,
            recursive_modify_snd, childPkVal]; done)) <;>
          (rcases it with _ | (x | ⟨kt, vt⟩)) <;>
          (try cases x) <;>
          (try cases vt) <;>
          (try cases value) <;>
          first
            | exact absurd rfl hv
            | simp [modifyFields, childrenOfFields, rowDict, ih,
                childStmts_append, fieldChildren, fieldCell, hv, childStmts,
                modifySeqItems_eq, modifyMapVals_eq, recursive_modify_snd,
                childPkVal]

/-- C5: the write-path walker emits, for any entity, the complete
statement sequences of all its nested children (entity-reference field
values, sequence-of-entity elements, mapping entity values), in field
order, strictly *before* the single statement built for the entity
itself, which comes last and references children only through the
primary keys stored in its flattened field map (`rowDict`). Since
`execute_queries` executes the emitted list front to back, one
statement at a time, a parent statement is never executed before its
children's statements. -/
theorem c5_children_emitted_before_parent
    (fac : QueryFactory) (v : PyVal) (ty : ModelTy) (vals : List PyVal)
    (sch : SQLDanticSchema)
    (hv : v = .vobj ty vals) (hs : schemaOf ty = some sch) :
    (recursive_modify_table_queries fac v).1 =
      childStmts fac (directChildren v) ++
        [fac sch (rowDict sch.sqldantic_fields vals)] := by
  subst hv
  simp only [recursive_modify_table_queries, hs, directChildren,
    modifyFields_eq]

theorem c5_children_emitted_before_parent_witness :
    (recursive_modify_table_queries insert_query_factory
        (.vobj ⟨"Order", [("id", Ann.pyStr),
            ("customer", .model "Customer" [("id", Ann.pyStr)]),
            ("items", .seqOf [.model "LineItem" [("id", Ann.pyStr)]])]⟩
          [.vstr "o1", .vobj ⟨"Customer", [("id", Ann.pyStr)]⟩ [.vstr "c1"],
           .vlist [.vobj ⟨"LineItem", [("id", Ann.pyStr)]⟩ [.vstr "i1"]]])).1 =
      childStmts insert_query_factory
          (directChildren
            (.vobj ⟨"Order", [("id", Ann.pyStr),
                ("customer", .model "Customer" [("id", Ann.pyStr)]),
                ("items", .seqOf [.model "LineItem" [("id", Ann.pyStr)]])]⟩
              [.vstr "o1", .vobj ⟨"Customer", [("id", Ann.pyStr)]⟩ [.vstr "c1"],
               .vlist [.vobj ⟨"LineItem", [("id", Ann.pyStr)]⟩ [.vstr "i1"]]])) ++
        [insert_query_factory
          { model := ⟨"Order", [("id", Ann.pyStr),
              ("customer", .model "Customer" [("id", Ann.pyStr)]),
              ("items", .seqOf [.model "LineItem" [("id", Ann.pyStr)]])]⟩,
            table_name := "orders", primary_key := "id",
            sqldantic_fields :=
              [("id", (SType.text, none)),
               ("customer", (SType.modelT "Customer" [("id", Ann.pyStr)], none)),
               ("items", (SType.sequenceT,
                 some (.inl (SType.modelT "LineItem" [("id", Ann.pyStr)]))))] }
          (rowDict
            [("id", (SType.text, none)),
             ("customer", (SType.modelT "Customer" [("id", Ann.pyStr)], none)),
             ("items", (SType.sequenceT,
               some (.inl (SType.modelT "LineItem" [("id", Ann.pyStr)]))))]
            [.vstr "o1", .vobj ⟨"Customer", [("id", Ann.pyStr)]⟩ [.vstr "c1"],
             .vlist [.vobj ⟨"LineItem", [("id", Ann.pyStr)]⟩ [.vstr "i1"]]])] ∧
    (recursive_modify_table_queries insert_query_factory
        (.vobj ⟨"Order", [("id", Ann.pyStr),
            ("customer", .model "Customer" [("id", Ann.pyStr)]),
            ("items", .seqOf [.model "LineItem" [("id", Ann.pyStr)]])]⟩
          [.vstr "o1", .vobj ⟨"Customer", [("id", Ann.pyStr)]⟩ [.vstr "c1"],
           .vlist [.vobj ⟨"LineItem", [("id", Ann.pyStr)]⟩ [.vstr "i1"]]])).1 =
      [.insertS "customers" ["id"] [.ctext "c1"] (some 0),
       .insertS "lineitems" ["id"] [.ctext "i1"] (some 0),
       .insertS "orders" ["id", "customer", "items"]
         [.ctext "o1", .ctext "c1", .ctext "i1"] (some 0)] :=
  ⟨c5_children_emitted_before_parent insert_query_factory _ _ _ _ rfl (by decide),
   by decide⟩

/-- The table name the default configuration derives for a model. -/
def tableNameOf (ty : ModelTy) : String := pluralize (strLower ty.name)

/-- The table of a model instance (`""` for non-instances). -/
def tableOfVal (v : PyVal) : String :=
  match schemaOfVal v with
  | some sch => sch.table_name
  | none => ""

/-- The model class of an instance. -/
def tyOfVal : PyVal → ModelTy
  | .vobj ty _ => ty
  | _ => ⟨"", []⟩

mutual

/-- Every entity instance the write walker builds a statement for,
in emission (post-order) order: all nested entities first, the
instance itself last. -/
def nodesOf : PyVal → List PyVal
  | .vobj ty vals =>
    match schemaOf ty with
    | none => []
    | some sch => nodesOfFields sch.sqldantic_fields vals ++ [.vobj ty vals]
  | _ => []

/-- Nodes contributed by a field list (mirrors the walker's field
branches). -/
def nodesOfFields : List (String × SFieldType) → List PyVal → List PyVal
  | [], _ => []
  | _ :: _, [] => []
  | (_, ft) :: flds, value :: vs =>
    (if value = PyVal.vnone then []
     else
      match ft with
      | (SType.modelT _ _, _) => nodesOf value
      | (SType.sequenceT, it) =>
        match it with
        | some (.inl (SType.modelT _ _)) =>
          match value with
          | .vlist items => nodesOfSeq items
          | _ => []
        | _ => []
      | (SType.mappingT, it) =>
        match it with
        | some (.inr (_, vt)) =>
          match vt with
          | SType.modelT _ _ =>
            match value with
            | .vdict kvs => nodesOfMap kvs
            | _ => []
          | _ => []
        | _ => []
      | (SType.unknown, it) =>
        match it with
        | some (.inl (SType.modelT _ _)) => nodesOf value
        | _ => []
      | _ => []) ++ nodesOfFields flds vs

/-- Nodes of a sequence of entities, element order preserved. -/
def nodesOfSeq : List PyVal → List PyVal
  | [] => []
  | item :: rest => nodesOf item ++ nodesOfSeq rest

/-- Nodes of a mapping's entity values, key order preserved. -/
def nodesOfMap : List (String × PyVal) → List PyVal
  | [] => []
  | (_, v) :: rest => nodesOf v ++ nodesOfMap rest

end

/-- The single statement the factory builds for one instance (empty
when the schema cannot be derived, matching the walker). -/
def nodeStmt (fac : QueryFactory) (n : PyVal) : List Stmt :=
  match n with
  | .vobj ty vals =>
    match schemaOf ty with
    | none => []
    | some sch => [fac sch (rowDict sch.sqldantic_fields vals)]
  | _ => []

/-- The statements of a node list, in order. -/
def stmtsOfNodes (fac : QueryFactory) : List PyVal → List Stmt
  | [] => []
  | n :: ns => nodeStmt fac n ++ stmtsOfNodes fac ns

theorem stmtsOfNodes_append (fac : QueryFactory) (a b : List PyVal) :
    stmtsOfNodes fac (a ++ b) = stmtsOfNodes fac a ++ stmtsOfNodes fac b := by
  induction a with
  | nil => rfl
  | cons n ns ih => simp [stmtsOfNodes, ih]

mutual

theorem walker_stmts_nodes (fac : QueryFactory) :
    (v : PyVal) →
      (recursive_modify_table_queries fac v).1 = stmtsOfNodes fac (nodesOf v)
  | .vobj ty vals => by
    cases hs : schemaOf ty with
    | none =>
      simp [recursive_modify_table_queries, nodesOf, hs, stmtsOfNodes]
    | some sch =>
      have h0 := walkerF_stmts_nodes fac sch.sqldantic_fields vals
      simp only [recursive_modify_table_queries, nodesOf, hs,
        stmtsOfNodes_append]
      rw [h0, modifyFields_eq]
      simp [stmtsOfNodes, nodeStmt, hs]
  | .vnone => rfl
  | .vstr s => rfl
  | .vint n => rfl
  | .vlist xs => rfl
  | .vdict kvs => rfl

theorem walkerF_stmts_nodes (fac : QueryFactory) :
    (flds : List (String × SFieldType)) → (vals : List PyVal) →
      (modifyFields fac flds vals).1 =
        stmtsOfNodes fac (nodesOfFields flds vals)
  | [], vals => by cases vals <;> rfl
  | _ :: _, [] => rfl
  | (fname, st, it) :: flds, value :: vs => by
    have hrest := walkerF_stmts_nodes fac flds vs
    by_cases hv : value = PyVal.vnone
    · subst hv
      simp [modifyFields, nodesOfFields, stmtsOfNodes, hrest]
    · have hval := walker_stmts_nodes fac value
      cases st with
      | null => simp [modifyFields, nodesOfFields, stmtsOfNodes, hv, hrest]
      | text => simp [modifyFields, nodesOfFields, stmtsOfNodes, hv, hrest]
      | blob => simp [modifyFields, nodesOfFields, stmtsOfNodes, hv, hrest]
      | integer => simp [modifyFields, nodesOfFields, stmtsOfNodes, hv, hrest]
      | real => simp [modifyFields, nodesOfFields, stmtsOfNodes, hv, hrest]
      | timestamp =>
        simp [modifyFields, nodesOfFields, stmtsOfNodes, hv, hrest]
      | unionT => simp [modifyFields, nodesOfFields, stmtsOfNodes, hv, hrest]
      | annotatedT =>
        simp [modifyFields, nodesOfFields, stmtsOfNodes, hv, hrest]
      | modelT n fs =>
        simp [modifyFields, nodesOfFields, stmtsOfNodes_append, hv, hrest,
          hval]
      | sequenceT =>
        rcases it with _ | (x | ⟨kt, vt⟩)
        · cases value <;>
            simp [modifyFields, nodesOfFields, stmtsOfNodes, hv, hrest]
        · cases x with
          | modelT n fs =>
            cases value with
            | vlist items =>
              have hseq := walkerS_stmts_nodes fac items
              simp [modifyFields, nodesOfFields, stmtsOfNodes_append, hv,
                hrest, hseq]
            | vnone => exact absurd rfl hv
            | vstr s =>
              simp [modifyFields, nodesOfFields, stmtsOfNodes, hv, hrest]
            | vint n2 =>
              simp [modifyFields, nodesOfFields, stmtsOfNodes, hv, hrest]
            | vdict kvs =>
              simp [modifyFields, nodesOfFields, stmtsOfNodes, hv, hrest]
            | vobj ty2 vals2 =>
              simp [modifyFields, nodesOfFields, stmtsOfNodes, hv, hrest]
          | null =>
            cases value <;>
              simp [modifyFields, nodesOfFields, stmtsOfNodes, hv, hrest]
          | text =>
            cases value <;>
              simp [modifyFields, nodesOfFields, stmtsOfNodes, hv, hrest]
          | blob =>
            cases value <;>
              simp [modifyFields, nodesOfFields, stmtsOfNodes, hv, hrest]
          | integer =>
            cases value <;>
              simp [modifyFields, nodesOfFields, stmtsOfNodes, hv, hrest]
          | real =>
            cases value <;>
              simp [modifyFields, nodesOfFields, stmtsOfNodes, hv, hrest]
          | timestamp =>
            cases value <;>
              simp [modifyFields, nodesOfFields, stmtsOfNodes, hv, hrest]
          | unionT =>
            cases value <;>
              simp [modifyFields, nodesOfFields, stmtsOfNodes, hv, hrest]
          | annotatedT =>
            cases value <;>
              simp [modifyFields, nodesOfFields, stmtsOfNodes, hv, hrest]
          | sequenceT =>
            cases value <;>
              simp [modifyFields, nodesOfFields, stmtsOfNodes, hv, hrest]
          | mappingT =>
            cases value <;>
              simp [modifyFields, nodesOfFields, stmtsOfNodes, hv, hrest]
          | unknown =>
            cases value <;>
              simp [modifyFields, nodesOfFields, stmtsOfNodes, hv, hrest]
        · cases value <;>
            simp [modifyFields, nodesOfFields, stmtsOfNodes, hv, hrest]
      | mappingT =>
        rcases it with _ | (x | ⟨kt, vt⟩)
        · simp [modifyFields, nodesOfFields, stmtsOfNodes, hv, hrest]
        · simp [modifyFields, nodesOfFields, stmtsOfNodes, hv, hrest]
        · cases vt with
          | modelT n fs =>
            cases value with
            | vdict kvs =>
              have hmap := walkerM_stmts_nodes fac kvs
              simp [modifyFields, nodesOfFields, stmtsOfNodes_append, hv,
                hrest, hmap]
            | vnone => exact absurd rfl hv
            | vstr s =>
              simp [modifyFields, nodesOfFields, stmtsOfNodes, hv, hrest]
            | vint n2 =>
              simp [modifyFields, nodesOfFields, stmtsOfNodes, hv, hrest]
            | vlist xs =>
              simp [modifyFields, nodesOfFields, stmtsOfNodes, hv, hrest]
            | vobj ty2 vals2 =>
              simp [modifyFields, nodesOfFields, stmtsOfNodes, hv, hrest]
          | null => simp [modifyFields, nodesOfFields, stmtsOfNodes, hv, hrest]
          | text => simp [modifyFields, nodesOfFields, stmtsOfNodes, hv, hrest]
          | blob => simp [modifyFields, nodesOfFields, stmtsOfNodes, hv, hrest]
          | integer =>
            simp [modifyFields, nodesOfFields, stmtsOfNodes, hv, hrest]
          | real => simp [modifyFields, nodesOfFields, stmtsOfNodes, hv, hrest]
          | timestamp =>
            simp [modifyFields, nodesOfFields, stmtsOfNodes, hv, hrest]
          | unionT =>
            simp [modifyFields, nodesOfFields, stmtsOfNodes, hv, hrest]
          | annotatedT =>
            simp [modifyFields, nodesOfFields, stmtsOfNodes, hv, hrest]
          | sequenceT =>
            simp [modifyFields, nodesOfFields, stmtsOfNodes, hv, hrest]
          | mappingT =>
            simp [modifyFields, nodesOfFields, stmtsOfNodes, hv, hrest]
          | unknown =>
            simp [modifyFields, nodesOfFields, stmtsOfNodes, hv, hrest]
      | unknown =>
        rcases it with _ | (x | ⟨kt, vt⟩)
        · simp [modifyFields, nodesOfFields, stmtsOfNodes, hv, hrest]
        · cases x <;>
            simp [modifyFields, nodesOfFields, stmtsOfNodes,
              stmtsOfNodes_append, hv, hrest, hval]
        · simp [modifyFields, nodesOfFields, stmtsOfNodes, hv, hrest]

theorem walkerS_stmts_nodes (fac : QueryFactory) :
    (items : List PyVal) →
      (modifySeqItems fac items).1 = stmtsOfNodes fac (nodesOfSeq items)
  | [] => rfl
  | item :: rest => by
    simp [modifySeqItems, nodesOfSeq, stmtsOfNodes_append,
      walker_stmts_nodes fac item, walkerS_stmts_nodes fac rest]

theorem walkerM_stmts_nodes (fac : QueryFactory) :
    (kvs : List (String × PyVal)) →
      (modifyMapVals fac kvs).1 = stmtsOfNodes fac (nodesOfMap kvs)
  | [] => rfl
  | (k, v) :: rest => by
    simp [modifyMapVals, nodesOfMap, stmtsOfNodes_append,
      walker_stmts_nodes fac v, walkerM_stmts_nodes fac rest]

end

mutual

/-- Values `json.dumps` round-trips exactly in this engine's usage:
no model instances (and string keys by construction). -/
def jsonAble : PyVal → Bool
  | .vnone => true
  | .vstr _ => true
  | .vint _ => true
  | .vlist xs => jsonAbleList xs
  | .vdict kvs => jsonAbleKvs kvs
  | .vobj _ _ => false

/-- Elementwise `jsonAble`. -/
def jsonAbleList : List PyVal → Bool
  | [] => true
  | x :: xs => jsonAble x && jsonAbleList xs

/-- Valuewise `jsonAble`. -/
def jsonAbleKvs : List (String × PyVal) → Bool
  | [] => true
  | (_, v) :: kvs => jsonAble v && jsonAbleKvs kvs

end

/-- Shape conditions on a model class under which the default
configuration derives a usable schema: a non-empty name, a first
(primary-key) field of TEXT category, and no `?` in the identifiers
that are interpolated into SQL text (a `?` in them would throw off the
placeholder count of the select contract — a faithful limitation). -/
def goodTyShape (n : String) (fs : List (String × Ann)) : Bool :=
  n != "" && !((tableNameOf ⟨n, fs⟩).data.contains '?') &&
  (match fs.head? with
   | some (pkn, pkann) =>
     !(pkn.data.contains '?') &&
     (get_sqldantic_type SQLDANTIC_TYPE_MAP pkann).1 == SType.text
   | none => false)

/-- A usable primary-key value: a non-empty string without the sequence
separator (a separator inside a key would corrupt the delimited
reference lists — a faithful limitation). -/
def goodPkVal : PyVal → Bool
  | .vstr s => s != "" && !(s.data.contains ',')
  | _ => false

mutual

/-- Well-formedness of an entity graph: the supported shapes on which
the round-trip properties are proved. Every instance matches its
declared model class; scalar fields are TEXT (`str`) or INTEGER
(`int`); primary keys are non-empty separator-free strings; scalar
sequences are non-empty lists of separator-free strings; entity
sequences contain instances of the declared element class; mappings
have non-entity values (entity-valued mappings crash the read path) and
JSON-able contents. -/
def goodVal : PyVal → Bool
  | .vobj ty vals =>
    goodTyShape ty.name ty.fields &&
    decide (List.Nodup (ty.fields.map Prod.fst)) &&
    vals.length == ty.fields.length &&
    (match vals.head? with
     | some v0 => goodPkVal v0
     | none => false) &&
    goodFields ty.fields vals
  | _ => false

/-- One field's well-formedness against its declared annotation. -/
def goodFieldOne (ann : Ann) (value : PyVal) : Bool :=
  if value = PyVal.vnone then true
  else
    match get_sqldantic_type SQLDANTIC_TYPE_MAP ann with
    | (SType.text, _) =>
      match value with
      | .vstr _ => true
      | _ => false
    | (SType.integer, _) =>
      match value with
      | .vint _ => true
      | _ => false
    | (SType.modelT n fs, _) =>
      match value with
      | .vobj ty2 vals2 =>
        ty2 == (⟨n, fs⟩ : ModelTy) && goodVal (.vobj ty2 vals2)
      | _ => false
    | (SType.sequenceT, it) =>
      match it with
      | some (.inl SType.text) =>
        match value with
        | .vlist items => !items.isEmpty && goodStrItems items
        | _ => false
      | some (.inl (SType.modelT n fs)) =>
        goodTyShape n fs &&
        (match value with
         | .vlist items => goodObjItems (⟨n, fs⟩ : ModelTy) items
         | _ => false)
      | _ => false
    | (SType.mappingT, it) =>
      match it with
      | some (.inr (_, vt)) =>
        match vt with
        | SType.modelT _ _ => false
        | _ =>
          match value with
          | .vdict kvs => jsonAbleKvs kvs
          | _ => false
      | _ => false
    | _ => false

/-- Per-field well-formedness against the declared annotations. -/
def goodFields : List (String × Ann) → List PyVal → Bool
  | [], [] => true
  | [], _ :: _ => false
  | _ :: _, [] => false
  | (_, ann) :: flds, value :: vs =>
    goodFieldOne ann value && goodFields flds vs

/-- Scalar sequence elements: separator-free strings. -/
def goodStrItems : List PyVal → Bool
  | [] => true
  | .vstr s :: rest => !(s.data.contains ',') && goodStrItems rest
  | _ => false

/-- One sequence element's well-formedness: an instance of the
declared element class. -/
def goodObjOne (ity : ModelTy) (item : PyVal) : Bool :=
  match item with
  | .vobj ty2 vals2 => ty2 == ity && goodVal (.vobj ty2 vals2)
  | _ => false

/-- Entity sequence elements: well-formed instances of the declared
element class. -/
def goodObjItems (ity : ModelTy) : List PyVal → Bool
  | [] => true
  | item :: rest => goodObjOne ity item && goodObjItems ity rest

end

/-- The stringified primary key of an instance. -/
def pkStrOf (v : PyVal) : String := pyToStr (childPkVal v)

/-- The identity a row carries: its table and stringified primary
key. -/
def identOf (v : PyVal) : String × String := (tableOfVal v, pkStrOf v)

/-- Identities of every persisted node of a graph. -/
def identsOf (v : PyVal) : List (String × String) := (nodesOf v).map identOf

/-- Whether an execution outcome is a success. -/
def isOk : PyOutcome α → Bool
  | .ok _ => true
  | _ => false

theorem schemaOf_of_shape (n : String) (f0 : String × Ann)
    (rest : List (String × Ann)) (hn : n ≠ "") :
    schemaOf ⟨n, f0 :: rest⟩ = some
      { model := ⟨n, f0 :: rest⟩,
        table_name := pluralize (strLower n),
        primary_key := f0.1,
        sqldantic_fields := (f0 :: rest).map
          (fun p => (p.1, get_sqldantic_type SQLDANTIC_TYPE_MAP p.2)) } := by
  simp [schemaOf, mkSQLDanticSchema, defaultSchemaConfig, get_table_name,
    get_table_name_from_class_name, hn, transform_table_name,
    get_primary_key, get_primary_key_from_first_field,
    get_model_sqldantic_fields]

/-- Table of an insert statement. -/
def insTable : Stmt → String
  | .insertS t _ _ _ => t
  | _ => ""

/-- Row an insert statement appends. -/
def insRow : Stmt → List Cell
  | .insertS _ _ vals _ => vals
  | _ => []

/-- The primary-key cell of an insert statement (column 0: the primary
key is always the first declared field under the default getter). -/
def insPk (s : Stmt) : Cell := (insRow s).getD 0 .cnull

/-- Insert statement with the PRIMARY KEY constraint on column 0. -/
def isIns0 : Stmt → Bool
  | .insertS _ _ _ (some 0) => true
  | _ => false

/-- Whether the statement's key cell is TEXT. -/
def insPkIsText (s : Stmt) : Bool :=
  match insPk s with
  | .ctext _ => true
  | _ => false

/-- The key text of an insert statement. -/
def pkTextOf (s : Stmt) : String :=
  match insPk s with
  | .ctext t => t
  | _ => ""

/-- The identity an insert statement claims. -/
def stmtIdent (s : Stmt) : String × String := (insTable s, pkTextOf s)

/-- Appending an insert's row, ignoring the constraint. -/
def applyIns (db : DB) (s : Stmt) : DB := dbInsertRow db (insTable s) (insRow s)

/-- Appending all inserts' rows in order. -/
def applyInsAll : DB → List Stmt → DB
  | db, [] => db
  | db, s :: rest => applyInsAll (applyIns db s) rest

theorem applyInsAll_rows (stmts : List Stmt) (db : DB) (t : String) :
    applyInsAll db stmts t =
      db t ++ (stmts.filter (fun s => insTable s == t)).map insRow := by
  induction stmts generalizing db with
  | nil => simp [applyInsAll]
  | cons s rest ih =>
    simp only [applyInsAll, ih, List.filter_cons]
    by_cases ht : insTable s = t
    · subst ht
      simp [applyIns, dbInsertRow]
    · simp only [applyIns, dbInsertRow]
      rw [if_neg (fun hc => ht hc.symm)]
      simp [ht]

theorem catch_unique_swallowed (t c : String) :
    catch_sqlite_errors defaultIgnoreCfg
      (Except.error (uniqueErrFor t c) : Except SqliteErr α) = .swallowed := by
  have hpre : strStartsWith (uniqueErrFor t c).msg
      "UNIQUE constraint failed" = true := by
    show ("UNIQUE constraint failed".data.isPrefixOf
      ("UNIQUE constraint failed: " ++ t ++ "." ++ c).data) = true
    rw [List.isPrefixOf_iff_prefix]
    have h1 : "UNIQUE constraint failed".data <+: "UNIQUE constraint failed: ".data := by
      decide
    have h2 : ("UNIQUE constraint failed: " ++ t ++ "." ++ c).data =
        "UNIQUE constraint failed: ".data ++ (t.data ++ ".".data ++ c.data) := by
      simp [String.data_append]
    rw [h2]
    exact h1.trans (List.prefix_append _ _)
  have hne : (uniqueErrFor t c).msg ≠ "" := by
    intro h
    have : ("UNIQUE constraint failed: " ++ t ++ "." ++ c).data = "".data := by
      rw [show ("" : String) = ("UNIQUE constraint failed: " ++ t ++ "." ++ c) from h.symm]
    simp [String.data_append] at this
  simp [catch_sqlite_errors, defaultIgnoreCfg, cfgTruthy, cfgIsTrue, kindMem,
    hne, scanStartswith, hpre]

theorem exec_inserts_fresh (cfg : IgnoreCfg) (stmts : List Stmt) (db : DB)
    (hsh : ∀ s ∈ stmts, isIns0 s = true)
    (htx : ∀ s ∈ stmts, insPkIsText s = true)
    (hnd : (stmts.map stmtIdent).Nodup)
    (hdb : ∀ s ∈ stmts, ∀ r ∈ db (insTable s),
      cellMatch (r.getD 0 .cnull) (insPk s) = false) :
    execute_queries cfg db stmts = .ok (applyInsAll db stmts) := by
  induction stmts generalizing db with
  | nil => rfl
  | cons s rest ih =>
    have hs := hsh s (by simp)
    rcases s with ⟨t, cols, vals, pkIdx?⟩ | ⟨a1, a2, a3, a4⟩ | ⟨a1, a2⟩
    rotate_left
    · exact absurd hs (by simp [isIns0])
    · exact absurd hs (by simp [isIns0])
    rcases pkIdx? with _ | i
    · exact absurd hs (by simp [isIns0])
    have hi : i = 0 := by
      cases i with
      | zero => rfl
      | succ j => exact absurd hs (by simp [isIns0])
    subst hi
    have hnoc : ((db t).any
        (fun r => cellMatch (r.getD 0 .cnull) (vals.getD 0 .cnull))) = false := by
      rw [List.any_eq_false]
      intro r hr
      have := hdb (.insertS t cols vals (some 0)) (by simp) r
        (by simpa [insTable] using hr)
      simpa [insPk, insRow] using this
    have hexec : execute_and_commit cfg db (.insertS t cols vals (some 0)) =
        .ok (dbInsertRow db t vals) := by
      simp only [execute_and_commit, rawExec]
      rw [hnoc]
      simp [catch_sqlite_errors]
    simp only [execute_queries, hexec, applyInsAll]
    show execute_queries cfg (dbInsertRow db t vals) rest =
      .ok (applyInsAll (dbInsertRow db t vals) rest)
    have hnd2 : (rest.map stmtIdent).Nodup := by
      rw [List.map_cons, List.nodup_cons] at hnd
      exact hnd.2
    have hnotin : stmtIdent (Stmt.insertS t cols vals (some 0)) ∉
        rest.map stmtIdent := by
      rw [List.map_cons, List.nodup_cons] at hnd
      exact hnd.1
    refine ih _ (fun s3 hs3 => hsh s3 (by simp [hs3]))
      (fun s3 hs3 => htx s3 (by simp [hs3])) hnd2 ?_
    intro s2 hs2 r hr
    have htx1 := htx (.insertS t cols vals (some 0)) (by simp)
    have htx2 := htx s2 (by simp [hs2])
    have hrow : r ∈ db (insTable s2) ∨ (insTable s2 = t ∧ r = vals) := by
      by_cases ht2 : insTable s2 = t
      · rw [ht2] at hr
        simp [dbInsertRow] at hr
        rcases hr with hr | hr
        · exact .inl (by rwa [ht2])
        · exact .inr ⟨ht2, hr⟩
      · left
        simpa [dbInsertRow, ht2] using hr
    rcases hrow with hr2 | ⟨ht2, hr2⟩
    · exact hdb s2 (by simp [hs2]) r hr2
    · rw [hr2]
      have h1 : ∃ s1t, vals.getD 0 Cell.cnull = Cell.ctext s1t := by
        revert htx1
        simp only [insPkIsText, insPk, insRow]
        cases vals.getD 0 Cell.cnull <;> simp
      obtain ⟨s1t, hv0⟩ := h1
      have h2 : ∃ s2t, insPk s2 = Cell.ctext s2t := by
        revert htx2
        simp only [insPkIsText]
        cases insPk s2 <;> simp
      obtain ⟨s2t, hp2⟩ := h2
      have hstr : s1t ≠ s2t := by
        intro he2
        apply hnotin
        have hform2 : pkTextOf s2 = s2t := by
          simp [pkTextOf, hp2]
        have hform1 : pkTextOf (Stmt.insertS t cols vals (some 0)) = s1t := by
          simp only [pkTextOf, insPk, insRow]
          rw [hv0]
        have hid : stmtIdent (Stmt.insertS t cols vals (some 0)) =
            stmtIdent s2 := by
          show (insTable (Stmt.insertS t cols vals (some 0)),
              pkTextOf (Stmt.insertS t cols vals (some 0))) =
            (insTable s2, pkTextOf s2)
          rw [ht2, hform1, hform2, he2]
          simp [insTable]
        rw [hid]
        exact List.mem_map_of_mem stmtIdent hs2
      rw [hv0, hp2]
      simp only [cellMatch, cellBeq]
      simp [hstr]

theorem exec_inserts_all_conflict (stmts : List Stmt) (db : DB)
    (hsh : ∀ s ∈ stmts, isIns0 s = true)
    (hdb : ∀ s ∈ stmts, (db (insTable s)).any
      (fun r => cellMatch (r.getD 0 .cnull) (insPk s)) = true) :
    execute_queries defaultIgnoreCfg db stmts = .ok db := by
  induction stmts with
  | nil => rfl
  | cons s rest ih =>
    have hs := hsh s (by simp)
    rcases s with ⟨t, cols, vals, pkIdx?⟩ | ⟨a1, a2, a3, a4⟩ | ⟨a1, a2⟩
    rotate_left
    · exact absurd hs (by simp [isIns0])
    · exact absurd hs (by simp [isIns0])
    rcases pkIdx? with _ | i
    · exact absurd hs (by simp [isIns0])
    have hi : i = 0 := by
      cases i with
      | zero => rfl
      | succ j => exact absurd hs (by simp [isIns0])
    subst hi
    have hc := hdb (.insertS t cols vals (some 0)) (by simp)
    have hc2 : ((db t).any
        (fun r => cellMatch (r.getD 0 .cnull) (vals.getD 0 .cnull))) = true := by
      simpa [insTable, insPk, insRow] using hc
    have hexec : execute_and_commit defaultIgnoreCfg db
        (.insertS t cols vals (some 0)) = .swallowed := by
      simp only [execute_and_commit, rawExec]
      rw [hc2]
      simp only [if_true]
      exact catch_unique_swallowed t (cols.getD 0 "")
    simp only [execute_queries, hexec]
    exact ih (fun s3 hs3 => hsh s3 (by simp [hs3]))
      (fun s3 hs3 => hdb s3 (by simp [hs3]))

/-- The annotation-to-category mapping applied to every declared
field (the schema's `sqldantic_fields` under the default
configuration). -/
def sfieldsOf (fs : List (String × Ann)) : List (String × SFieldType) :=
  fs.map (fun p => (p.1, get_sqldantic_type SQLDANTIC_TYPE_MAP p.2))

mutual

/-- The nesting height of an entity graph: the number of hydration
levels (and hence recursion-budget steps) needed to rebuild it. -/
def heightOf : PyVal → Nat
  | .vobj ty vals => heightFields ty.fields vals + 1
  | _ => 0

/-- Hydration levels required below one field list: a non-null
entity-reference field costs its value's height; a non-null
sequence-of-entities field costs a level even when empty, because the
read path still issues the nested select. -/
def heightFields : List (String × Ann) → List PyVal → Nat
  | [], _ => 0
  | _ :: _, [] => 0
  | (_, ann) :: flds, value :: vs =>
    max
      (if value = PyVal.vnone then 0
       else
        match get_sqldantic_type SQLDANTIC_TYPE_MAP ann with
        | (SType.modelT _ _, _) => heightOf value
        | (SType.sequenceT, some (.inl (SType.modelT _ _))) =>
          match value with
          | .vlist items => heightSeq items
          | _ => 0
        | _ => 0)
      (heightFields flds vs)

/-- Hydration levels required for a sequence of entities (at least
one: the nested select itself). -/
def heightSeq : List PyVal → Nat
  | [] => 1
  | item :: rest => max (heightOf item) (heightSeq rest)

end

theorem heightSeq_pos (items : List PyVal) : 1 ≤ heightSeq items := by
  cases items with
  | nil => simp [heightSeq]
  | cons item rest => simp [heightSeq]; right; exact heightSeq_pos rest

theorem heightSeq_le (items : List PyVal) (item : PyVal)
    (h : item ∈ items) : heightOf item ≤ heightSeq items := by
  induction items with
  | nil => cases h
  | cons a rest ih =>
    rcases List.mem_cons.mp h with rfl | h2
    · simp [heightSeq]
    · simp only [heightSeq]
      exact le_max_of_le_right (ih h2)

/-- The flattened row stored for a node (column cells in field
order). -/
def rowOf : PyVal → List Cell
  | .vobj ty vals => (rowDict (sfieldsOf ty.fields) vals).map Prod.snd
  | _ => []

/-- The column list of a node's insert statement. -/
def colsOf : PyVal → List String
  | .vobj ty vals => (rowDict (sfieldsOf ty.fields) vals).map Prod.fst
  | _ => []

/-- The insert statement the default factory builds for a node. -/
def stmtOf (n : PyVal) : Stmt :=
  .insertS (tableOfVal n) (colsOf n) (rowOf n) (some 0)

/-- The nodes of a graph whose table and stringified key match a
select over the table of `m` with key arguments `qs`. -/
def matchedNodes (vtop : PyVal) (m : ModelTy) (qs : List String) :
    List PyVal :=
  (nodesOf vtop).filter (fun n =>
    tableOfVal n == tableNameOf m && qs.any (fun q => pkStrOf n == q))

theorem goodTyShape_elim (n : String) (fs : List (String × Ann))
    (h : goodTyShape n fs = true) :
    n ≠ "" ∧ (tableNameOf ⟨n, fs⟩).data.contains '?' = false ∧
      ∃ pkn pkann rest, fs = (pkn, pkann) :: rest ∧
        pkn.data.contains '?' = false ∧
        (get_sqldantic_type SQLDANTIC_TYPE_MAP pkann).1 = SType.text := by
  cases fs with
  | nil => simp [goodTyShape] at h
  | cons f0 rest =>
    obtain ⟨pkn, pkann⟩ := f0
    simp only [goodTyShape, List.head?, Bool.and_eq_true, bne_iff_ne,
      ne_eq, Bool.not_eq_true', beq_iff_eq] at h
    exact ⟨h.1.1, h.1.2, pkn, pkann, rest, rfl, h.2.1, h.2.2⟩

theorem goodVal_elim (ty : ModelTy) (vals : List PyVal)
    (h : goodVal (.vobj ty vals) = true) :
    goodTyShape ty.name ty.fields = true ∧
    (ty.fields.map Prod.fst).Nodup ∧
    vals.length = ty.fields.length ∧
    (∃ v0 vs, vals = v0 :: vs ∧ goodPkVal v0 = true) ∧
    goodFields ty.fields vals = true := by
  simp only [goodVal, Bool.and_eq_true, decide_eq_true_eq,
    beq_iff_eq] at h
  obtain ⟨⟨⟨⟨h1, h2⟩, h3⟩, h4⟩, h5⟩ := h
  refine ⟨h1, h2, h3, ?_, h5⟩
  cases vals with
  | nil => simp at h4
  | cons v0 vs => exact ⟨v0, vs, rfl, by simpa using h4⟩

theorem schemaOf_good (ty : ModelTy) (pkn : String) (pkann : Ann)
    (rest : List (String × Ann)) (hf : ty.fields = (pkn, pkann) :: rest)
    (hn : ty.name ≠ "") :
    schemaOf ty = some
      { model := ty, table_name := tableNameOf ty, primary_key := pkn,
        sqldantic_fields := sfieldsOf ty.fields } := by
  obtain ⟨n, fs⟩ := ty
  simp only at hf
  subst hf
  rw [schemaOf_of_shape n (pkn, pkann) rest hn]
  rfl

theorem goodFields_cons (fname : String) (ann : Ann)
    (flds : List (String × Ann)) (value : PyVal) (vs : List PyVal) :
    goodFields ((fname, ann) :: flds) (value :: vs) =
      (goodFieldOne ann value && goodFields flds vs) := by
  simp only [goodFields]

theorem goodObjItems_cons (ity : ModelTy) (item : PyVal)
    (rest : List PyVal) :
    goodObjItems ity (item :: rest) =
      (goodObjOne ity item && goodObjItems ity rest) := by
  simp only [goodObjItems]

/-- The nodes one field contributes (the corresponding branch of
`nodesOfFields`, named). -/
def nodesOfField (ft : SFieldType) (value : PyVal) : List PyVal :=
  if value = PyVal.vnone then []
  else
    match ft with
    | (SType.modelT _ _, _) => nodesOf value
    | (SType.sequenceT, it) =>
      match it with
      | some (.inl (SType.modelT _ _)) =>
        match value with
        | .vlist items => nodesOfSeq items
        | _ => []
      | _ => []
    | (SType.mappingT, it) =>
      match it with
      | some (.inr (_, vt)) =>
        match vt with
        | SType.modelT _ _ =>
          match value with
          | .vdict kvs => nodesOfMap kvs
          | _ => []
        | _ => []
      | _ => []
    | (SType.unknown, it) =>
      match it with
      | some (.inl (SType.modelT _ _)) => nodesOf value
      | _ => []
    | _ => []

theorem nodesOfFields_cons (fname : String) (ft : SFieldType)
    (flds : List (String × SFieldType)) (value : PyVal) (vs : List PyVal) :
    nodesOfFields ((fname, ft) :: flds) (value :: vs) =
      nodesOfField ft value ++ nodesOfFields flds vs := by
  by_cases hv : value = PyVal.vnone
  · subst hv
    simp [nodesOfFields, nodesOfField]
  · obtain ⟨st, it⟩ := ft
    cases st <;> rcases it with _ | (x | ⟨kt, vt⟩) <;> (try cases x) <;>
        (try cases vt) <;> cases value <;>
      simp [nodesOfFields, nodesOfField, hv]

theorem goodNodesAux (k : Nat) :
    (∀ v : PyVal, sizeOf v ≤ k → goodVal v = true →
       ∀ n ∈ nodesOf v, goodVal n = true) ∧
    (∀ (flds : List (String × Ann)) (vals : List PyVal), sizeOf vals ≤ k →
       goodFields flds vals = true →
       ∀ n ∈ nodesOfFields (sfieldsOf flds) vals, goodVal n = true) ∧
    (∀ (ity : ModelTy) (items : List PyVal), sizeOf items ≤ k →
       goodObjItems ity items = true →
       ∀ n ∈ nodesOfSeq items, goodVal n = true) := by
  induction k with
  | zero =>
    refine ⟨?_, ?_, ?_⟩
    · intro v hk
      cases v <;> simp at hk
    · intro flds vals hk
      cases vals <;> simp at hk
    · intro ity items hk
      cases items <;> simp at hk
  | succ k ih =>
    obtain ⟨ihV, ihF, ihS⟩ := ih
    refine ⟨?_, ?_, ?_⟩
    · intro v hk hg
      cases v with
      | vobj ty vals =>
        obtain ⟨hsh, hndf, hlen, ⟨v0, vs0, hv0, hpk⟩, hflds⟩ :=
          goodVal_elim ty vals hg
        obtain ⟨hn0, _, pkn, pkann, rest, hf, _, _⟩ :=
          goodTyShape_elim ty.name ty.fields hsh
        have hk2 : sizeOf vals ≤ k := by
          simp at hk
          omega
        have hF := ihF ty.fields vals hk2 hflds
        intro n hn2
        simp only [nodesOf, schemaOf_good ty pkn pkann rest hf hn0,
          List.mem_append, List.mem_singleton] at hn2
        rcases hn2 with hn2 | rfl
        · exact hF n hn2
        · exact hg
      | vnone => simp [goodVal] at hg
      | vstr _ => simp [goodVal] at hg
      | vint _ => simp [goodVal] at hg
      | vlist _ => simp [goodVal] at hg
      | vdict _ => simp [goodVal] at hg
    · intro flds vals hk hg
      cases flds with
      | nil =>
        intro n hn
        cases vals <;> simp [sfieldsOf, nodesOfFields] at hn
      | cons fld flds =>
        obtain ⟨fname, ann⟩ := fld
        cases vals with
        | nil =>
          intro n hn
          simp [sfieldsOf, nodesOfFields] at hn
        | cons value vs =>
          rw [goodFields_cons, Bool.and_eq_true] at hg
          obtain ⟨hcur, hrest⟩ := hg
          have hkvs : sizeOf vs ≤ k := by
            simp at hk
            omega
          have hkv : sizeOf value ≤ k := by
            simp at hk
            omega
          have hR := ihF flds vs hkvs hrest
          intro n hn
          rw [show sfieldsOf ((fname, ann) :: flds) =
                (fname, get_sqldantic_type SQLDANTIC_TYPE_MAP ann) ::
                  sfieldsOf flds from rfl, nodesOfFields_cons,
            List.mem_append] at hn
          by_cases hv : value = PyVal.vnone
          · subst hv
            rcases hn with hn | hn
            · simp [nodesOfField] at hn
            · exact hR n hn
          · rcases hn with hn | hn
            · rcases hft : get_sqldantic_type SQLDANTIC_TYPE_MAP ann
                with ⟨st, it⟩
              rw [hft] at hn
              cases st with
              | null => simp [nodesOfField, hv] at hn
              | text => simp [nodesOfField, hv] at hn
              | blob => simp [nodesOfField, hv] at hn
              | integer => simp [nodesOfField, hv] at hn
              | real => simp [nodesOfField, hv] at hn
              | timestamp => simp [nodesOfField, hv] at hn
              | unionT => simp [nodesOfField, hv] at hn
              | annotatedT => simp [nodesOfField, hv] at hn
              | modelT n2 fs2 =>
                simp only [nodesOfField] at hn
                rw [if_neg hv] at hn
                cases value with
                | vobj ty2 vals2 =>
                  simp [goodFieldOne, hft] at hcur
                  exact ihV (.vobj ty2 vals2) hkv hcur.2 n (by simpa using hn)
                | vnone => exact absurd rfl hv
                | vstr s => simp [goodFieldOne, hft] at hcur
                | vint m => simp [goodFieldOne, hft] at hcur
                | vlist xs => simp [goodFieldOne, hft] at hcur
                | vdict kvs => simp [goodFieldOne, hft] at hcur
              | sequenceT =>
                rcases it with _ | (x | ⟨kt, vt⟩)
                · simp [nodesOfField, hv] at hn
                · cases x with
                  | modelT n2 fs2 =>
                    cases value with
                    | vlist items =>
                      simp [goodFieldOne, hft] at hcur
                      simp [nodesOfField] at hn
                      have hki : sizeOf items ≤ k := by
                        simp at hkv
                        omega
                      exact ihS ⟨n2, fs2⟩ items hki hcur.2 n hn
                    | vnone => exact absurd rfl hv
                    | vstr s => simp [goodFieldOne, hft] at hcur
                    | vint m => simp [goodFieldOne, hft] at hcur
                    | vdict kvs => simp [goodFieldOne, hft] at hcur
                    | vobj ty2 vals2 => simp [goodFieldOne, hft] at hcur
                  | null => simp [nodesOfField, hv] at hn
                  | text => simp [nodesOfField, hv] at hn
                  | blob => simp [nodesOfField, hv] at hn
                  | integer => simp [nodesOfField, hv] at hn
                  | real => simp [nodesOfField, hv] at hn
                  | timestamp => simp [nodesOfField, hv] at hn
                  | unionT => simp [nodesOfField, hv] at hn
                  | annotatedT => simp [nodesOfField, hv] at hn
                  | sequenceT => simp [nodesOfField, hv] at hn
                  | mappingT => simp [nodesOfField, hv] at hn
                  | unknown => simp [nodesOfField, hv] at hn
                · simp [nodesOfField, hv] at hn
              | mappingT =>
                rcases it with _ | (x | ⟨kt, vt⟩)
                · simp [nodesOfField, hv] at hn
                · simp [nodesOfField, hv] at hn
                · cases vt with
                  | modelT n2 fs2 =>
                    cases value <;> first
                      | exact absurd rfl hv
                      | simp [goodFieldOne, hft] at hcur
                  | null => simp [nodesOfField, hv] at hn
                  | text => simp [nodesOfField, hv] at hn
                  | blob => simp [nodesOfField, hv] at hn
                  | integer => simp [nodesOfField, hv] at hn
                  | real => simp [nodesOfField, hv] at hn
                  | timestamp => simp [nodesOfField, hv] at hn
                  | unionT => simp [nodesOfField, hv] at hn
                  | annotatedT => simp [nodesOfField, hv] at hn
                  | sequenceT => simp [nodesOfField, hv] at hn
                  | mappingT => simp [nodesOfField, hv] at hn
                  | unknown => simp [nodesOfField, hv] at hn
              | unknown =>
                rcases it with _ | (x | ⟨kt, vt⟩)
                · simp [nodesOfField, hv] at hn
                · cases x with
                  | modelT n2 fs2 =>
                    cases value <;> first
                      | exact absurd rfl hv
                      | simp [goodFieldOne, hft] at hcur
                  | null => simp [nodesOfField, hv] at hn
                  | text => simp [nodesOfField, hv] at hn
                  | blob => simp [nodesOfField, hv] at hn
                  | integer => simp [nodesOfField, hv] at hn
                  | real => simp [nodesOfField, hv] at hn
                  | timestamp => simp [nodesOfField, hv] at hn
                  | unionT => simp [nodesOfField, hv] at hn
                  | annotatedT => simp [nodesOfField, hv] at hn
                  | sequenceT => simp [nodesOfField, hv] at hn
                  | mappingT => simp [nodesOfField, hv] at hn
                  | unknown => simp [nodesOfField, hv] at hn
                · simp [nodesOfField, hv] at hn
            · exact hR n hn
    · intro ity items hk hg
      cases items with
      | nil =>
        intro n hn
        simp [nodesOfSeq] at hn
      | cons item rest =>
        rw [goodObjItems_cons, Bool.and_eq_true] at hg
        obtain ⟨hcur, hrest⟩ := hg
        have hkr : sizeOf rest ≤ k := by
          simp at hk
          omega
        have hki : sizeOf item ≤ k := by
          simp at hk
          omega
        intro n hn
        simp only [nodesOfSeq, List.mem_append] at hn
        rcases hn with hn | hn
        · cases item with
          | vobj ty2 vals2 =>
            simp only [goodObjOne, Bool.and_eq_true] at hcur
            exact ihV (.vobj ty2 vals2) hki hcur.2 n hn
          | vnone => simp [goodObjOne] at hcur
          | vstr s => simp [goodObjOne] at hcur
          | vint m => simp [goodObjOne] at hcur
          | vlist xs => simp [goodObjOne] at hcur
          | vdict kvs => simp [goodObjOne] at hcur
        · exact ihS ity rest hkr hrest n hn

theorem goodNodes (v : PyVal) (hg : goodVal v = true) :
    ∀ n ∈ nodesOf v, goodVal n = true :=
  (goodNodesAux (sizeOf v)).1 v (le_refl _) hg

theorem goodNodesF (flds : List (String × Ann)) (vals : List PyVal)
    (hg : goodFields flds vals = true) :
    ∀ n ∈ nodesOfFields (sfieldsOf flds) vals, goodVal n = true :=
  (goodNodesAux (sizeOf vals)).2.1 flds vals (le_refl _) hg

theorem goodNodesS (ity : ModelTy) (items : List PyVal)
    (hg : goodObjItems ity items = true) :
    ∀ n ∈ nodesOfSeq items, goodVal n = true :=
  (goodNodesAux (sizeOf items)).2.2 ity items (le_refl _) hg

theorem goodPkVal_elim (v : PyVal) (h : goodPkVal v = true) :
    ∃ s, v = .vstr s ∧ s ≠ "" ∧ s.data.contains ',' = false := by
  cases v with
  | vstr s =>
    simp only [goodPkVal, Bool.and_eq_true, bne_iff_ne, ne_eq,
      Bool.not_eq_true'] at h
    exact ⟨s, rfl, h.1, h.2⟩
  | vnone => simp [goodPkVal] at h
  | vint m => simp [goodPkVal] at h
  | vlist xs => simp [goodPkVal] at h
  | vdict kvs => simp [goodPkVal] at h
  | vobj ty2 vals2 => simp [goodPkVal] at h

theorem goodVal_vobj (v : PyVal) (h : goodVal v = true) :
    ∃ ty vals, v = PyVal.vobj ty vals := by
  cases v with
  | vobj ty vals => exact ⟨ty, vals, rfl⟩
  | vnone => simp [goodVal] at h
  | vstr s => simp [goodVal] at h
  | vint m => simp [goodVal] at h
  | vlist xs => simp [goodVal] at h
  | vdict kvs => simp [goodVal] at h

theorem tableOfVal_good (ty : ModelTy) (vals : List PyVal)
    (hg : goodVal (.vobj ty vals) = true) :
    tableOfVal (.vobj ty vals) = tableNameOf ty := by
  obtain ⟨hsh, _, _, _, _⟩ := goodVal_elim ty vals hg
  obtain ⟨hn0, _, pkn, pkann, rest, hf, _, _⟩ :=
    goodTyShape_elim ty.name ty.fields hsh
  simp [tableOfVal, schemaOfVal, schemaOf_good ty pkn pkann rest hf hn0]

theorem pkStrOf_good (ty : ModelTy) (vals : List PyVal)
    (hg : goodVal (.vobj ty vals) = true) :
    ∃ s, vals.head? = some (.vstr s) ∧ pkStrOf (.vobj ty vals) = s ∧
      s ≠ "" ∧ s.data.contains ',' = false := by
  obtain ⟨hsh, _, _, ⟨v0, vs0, hv, hpk⟩, _⟩ := goodVal_elim ty vals hg
  obtain ⟨hn0, _, pkn, pkann, rest, hf, _, _⟩ :=
    goodTyShape_elim ty.name ty.fields hsh
  obtain ⟨s, hv0, hne, hsep⟩ := goodPkVal_elim v0 hpk
  subst hv0
  refine ⟨s, by simp [hv], ?_, hne, hsep⟩
  simp only [pkStrOf, childPkVal, schemaOfVal,
    schemaOf_good ty pkn pkann rest hf hn0, childPkName, getattrPy]
  rw [hf, hv]
  simp [List.lookup, pyToStr]

theorem fieldCell_text (ft : SFieldType) (s : String)
    (h : ft.1 = SType.text) : fieldCell ft (.vstr s) = .ctext s := by
  obtain ⟨st, it⟩ := ft
  simp only at h
  subst h
  simp [fieldCell, toCell]

theorem rowOf_head (ty : ModelTy) (vals : List PyVal)
    (hg : goodVal (.vobj ty vals) = true) :
    ∃ cells, rowOf (.vobj ty vals) =
      .ctext (pkStrOf (.vobj ty vals)) :: cells := by
  obtain ⟨hsh, _, _, _, _⟩ := goodVal_elim ty vals hg
  obtain ⟨hn0, _, pkn, pkann, rest, hf, _, hpkt⟩ :=
    goodTyShape_elim ty.name ty.fields hsh
  obtain ⟨s, hhd, hpks, _, _⟩ := pkStrOf_good ty vals hg
  obtain ⟨v0, vs0, hv⟩ : ∃ v0 vs0, vals = v0 :: vs0 := by
    cases vals with
    | nil => simp at hhd
    | cons a b => exact ⟨a, b, rfl⟩
  subst hv
  simp only [List.head?_cons, Option.some.injEq] at hhd
  subst hhd
  refine ⟨(rowDict (sfieldsOf rest) vs0).map Prod.snd, ?_⟩
  simp only [rowOf, hf, sfieldsOf, List.map_cons, rowDict, hpks]
  simp [fieldCell_text _ _ hpkt, sfieldsOf]

theorem pkConstraintIdx_good (ty : ModelTy) (pkn : String) (pkann : Ann)
    (rest : List (String × Ann)) (hf : ty.fields = (pkn, pkann) :: rest)
    (hpkt : (get_sqldantic_type SQLDANTIC_TYPE_MAP pkann).1 = SType.text) :
    pkConstraintIdx
      { model := ty, table_name := tableNameOf ty, primary_key := pkn,
        sqldantic_fields := sfieldsOf ty.fields } = some 0 := by
  rcases hgt : get_sqldantic_type SQLDANTIC_TYPE_MAP pkann with ⟨st, it⟩
  rw [hgt] at hpkt
  simp only at hpkt
  subst hpkt
  simp [pkConstraintIdx, hf, sfieldsOf, List.findIdx?_cons, hgt,
    inCreateScalarBranch]

theorem nodeStmt_good (ty : ModelTy) (vals : List PyVal)
    (hg : goodVal (.vobj ty vals) = true) :
    nodeStmt insert_query_factory (.vobj ty vals) =
      [stmtOf (.vobj ty vals)] := by
  obtain ⟨hsh, _, _, _, _⟩ := goodVal_elim ty vals hg
  obtain ⟨hn0, _, pkn, pkann, rest, hf, _, hpkt⟩ :=
    goodTyShape_elim ty.name ty.fields hsh
  simp only [nodeStmt, schemaOf_good ty pkn pkann rest hf hn0,
    insert_query_factory, stmtOf,
    pkConstraintIdx_good ty pkn pkann rest hf hpkt,
    tableOfVal_good ty vals hg, colsOf, rowOf]

theorem insPk_stmtOf_good (ty : ModelTy) (vals : List PyVal)
    (hg : goodVal (.vobj ty vals) = true) :
    insPk (stmtOf (.vobj ty vals)) =
      .ctext (pkStrOf (.vobj ty vals)) := by
  obtain ⟨cells, hrow⟩ := rowOf_head ty vals hg
  simp [insPk, insRow, stmtOf, hrow]

theorem stmtIdent_stmtOf_good (ty : ModelTy) (vals : List PyVal)
    (hg : goodVal (.vobj ty vals) = true) :
    stmtIdent (stmtOf (.vobj ty vals)) = identOf (.vobj ty vals) := by
  unfold stmtIdent pkTextOf
  rw [insPk_stmtOf_good ty vals hg]
  simp [identOf, insTable, stmtOf]

theorem stmtsOfNodes_map (ns : List PyVal)
    (hgs : ∀ n ∈ ns, goodVal n = true) :
    stmtsOfNodes insert_query_factory ns = ns.map stmtOf := by
  induction ns with
  | nil => rfl
  | cons n ns ih =>
    have hg := hgs n (by simp)
    obtain ⟨ty, vals, rfl⟩ := goodVal_vobj n hg
    simp only [stmtsOfNodes, nodeStmt_good ty vals hg, List.map_cons,
      ih (fun m hm => hgs m (by simp [hm])), List.singleton_append]

theorem isIns0_stmtOf (n : PyVal) : isIns0 (stmtOf n) = true := rfl

theorem insPkIsText_stmtOf_good (ty : ModelTy) (vals : List PyVal)
    (hg : goodVal (.vobj ty vals) = true) :
    insPkIsText (stmtOf (.vobj ty vals)) = true := by
  simp [insPkIsText, insPk_stmtOf_good ty vals hg]

theorem applyIns_map_stmtOf (ns : List PyVal) (db : DB) (t : String) :
    applyInsAll db (ns.map stmtOf) t =
      db t ++ (ns.filter (fun n => tableOfVal n == t)).map rowOf := by
  rw [applyInsAll_rows]
  congr 1
  induction ns with
  | nil => rfl
  | cons n ns ih =>
    simp only [List.map_cons, List.filter_cons]
    by_cases ht : tableOfVal n == t
    · rw [if_pos (by simpa [stmtOf, insTable] using ht), if_pos ht]
      simp only [List.map_cons, ih]
      rfl
    · rw [if_neg (by simpa [stmtOf, insTable] using ht), if_neg ht]
      exact ih

theorem insert_model_emptyDB (v : PyVal) (hg : goodVal v = true)
    (hnd : (identsOf v).Nodup) :
    insert_model defaultIgnoreCfg emptyDB v =
      .ok (applyInsAll emptyDB ((nodesOf v).map stmtOf)) := by
  have hall := goodNodes v hg
  have hstmts : (recursive_modify_table_queries insert_query_factory v).1 =
      (nodesOf v).map stmtOf := by
    rw [walker_stmts_nodes, stmtsOfNodes_map _ hall]
  rw [insert_model, hstmts]
  refine exec_inserts_fresh _ _ _ ?_ ?_ ?_ ?_
  · intro s hs
    obtain ⟨n, _, rfl⟩ := List.mem_map.mp hs
    exact isIns0_stmtOf n
  · intro s hs
    obtain ⟨n, hn, rfl⟩ := List.mem_map.mp hs
    obtain ⟨ty, vals, rfl⟩ := goodVal_vobj n (hall n hn)
    exact insPkIsText_stmtOf_good ty vals (hall _ hn)
  · rw [List.map_map]
    have : (stmtIdent ∘ stmtOf) = fun n => stmtIdent (stmtOf n) := rfl
    rw [show List.map (stmtIdent ∘ stmtOf) (nodesOf v) =
        List.map identOf (nodesOf v) from ?_]
    · exact hnd
    · refine List.map_congr_left ?_
      intro n hn
      obtain ⟨ty, vals, rfl⟩ := goodVal_vobj n (hall n hn)
      exact stmtIdent_stmtOf_good ty vals (hall _ hn)
  · intro s hs r hr
    simp [emptyDB] at hr

theorem contains_false_not_mem (l : List Char) (c : Char)
    (h : l.contains c = false) : c ∉ l := by
  intro hmem
  rw [show l.contains c = l.elem c from rfl] at h
  rw [List.elem_iff.mpr hmem] at h
  cases h

theorem filter_sublist_eq (f : PyVal → String × String) (p : PyVal → Bool)
    (l : List PyVal) : ∀ us : List PyVal, List.Sublist us l → (l.map f).Nodup →
    (∀ x ∈ l, (p x = true ↔ x ∈ us)) → l.filter p = us := by
  induction l with
  | nil =>
    intro us hsub _ _
    rw [List.sublist_nil.mp hsub]
    rfl
  | cons a l ih =>
    intro us hsub hnd hiff
    rw [List.map_cons, List.nodup_cons] at hnd
    by_cases pa : p a = true
    · have ha : a ∈ us := (hiff a (by simp)).mp pa
      rcases List.sublist_cons_iff.mp hsub with h2 | ⟨us', rfl, h2⟩
      · exact absurd (List.mem_map_of_mem f (h2.subset ha)) hnd.1
      · rw [List.filter_cons_of_pos pa]
        congr 1
        refine ih us' h2 hnd.2 ?_
        intro x hx
        constructor
        · intro hpx
          rcases List.mem_cons.mp ((hiff x (by simp [hx])).mp hpx) with rfl | h2
          · exact absurd (List.mem_map_of_mem f hx) hnd.1
          · exact h2
        · intro hx2
          exact (hiff x (by simp [hx])).mpr (List.mem_cons_of_mem a hx2)
    · have ha : a ∉ us := fun hmem => pa ((hiff a (by simp)).mpr hmem)
      have hsub2 : List.Sublist us l := by
        rcases List.sublist_cons_iff.mp hsub with h | ⟨us', rfl, h⟩
        · exact h
        · exact absurd (by simp) ha
      rw [List.filter_cons_of_neg (by simpa using pa)]
      refine ih us hsub2 hnd.2 ?_
      intro x hx
      constructor
      · intro hpx
        exact (hiff x (by simp [hx])).mp hpx
      · intro hx2
        exact (hiff x (by simp [hx])).mpr hx2

theorem goodObjItems_mem (ity : ModelTy) (items : List PyVal)
    (h : goodObjItems ity items = true) :
    ∀ item ∈ items, tyOfVal item = ity ∧ goodVal item = true := by
  induction items with
  | nil => intro item h2; cases h2
  | cons a rest ih =>
    rw [goodObjItems_cons, Bool.and_eq_true] at h
    intro item hmem
    rcases List.mem_cons.mp hmem with rfl | h2
    · have h1 := h.1
      cases item with
      | vobj ty2 vals2 =>
        simp only [goodObjOne, Bool.and_eq_true, beq_iff_eq] at h1
        exact ⟨by simp [tyOfVal, h1.1], h1.2⟩
      | vnone => simp [goodObjOne] at h1
      | vstr s => simp [goodObjOne] at h1
      | vint m => simp [goodObjOne] at h1
      | vlist xs => simp [goodObjOne] at h1
      | vdict kvs => simp [goodObjOne] at h1
    · exact ih h.2 item h2

theorem goodStrItems_elim (items : List PyVal)
    (h : goodStrItems items = true) :
    (items.map pyToStr).map PyVal.vstr = items ∧
      ∀ s ∈ items.map pyToStr, sepChar ∉ s.data := by
  induction items with
  | nil => exact ⟨rfl, by simp⟩
  | cons a rest ih =>
    cases a with
    | vstr s =>
      simp only [goodStrItems, Bool.and_eq_true, Bool.not_eq_true'] at h
      obtain ⟨h1, h2⟩ := h
      obtain ⟨ih1, ih2⟩ := ih h2
      refine ⟨by simp [pyToStr, ih1], ?_⟩
      intro s2 hs2
      rw [List.map_cons, List.mem_cons] at hs2
      rcases hs2 with rfl | h3
      · exact contains_false_not_mem _ _ h1
      · exact ih2 s2 h3
    | vnone => simp [goodStrItems] at h
    | vint m => simp [goodStrItems] at h
    | vlist xs => simp [goodStrItems] at h
    | vdict kvs => simp [goodStrItems] at h
    | vobj ty2 vals2 => simp [goodStrItems] at h

theorem self_mem_nodesOf (ty : ModelTy) (vals : List PyVal)
    (hg : goodVal (.vobj ty vals) = true) :
    (PyVal.vobj ty vals) ∈ nodesOf (.vobj ty vals) := by
  obtain ⟨hsh, _, _, _, _⟩ := goodVal_elim ty vals hg
  obtain ⟨hn0, _, pkn, pkann, rest, hf, _, _⟩ :=
    goodTyShape_elim ty.name ty.fields hsh
  simp [nodesOf, schemaOf_good ty pkn pkann rest hf hn0]

theorem items_sublist_nodesOfSeq (items : List PyVal)
    (h : ∀ item ∈ items, goodVal item = true) :
    List.Sublist items (nodesOfSeq items) := by
  induction items with
  | nil => simp [nodesOfSeq]
  | cons item rest ih =>
    have hitem := h item (by simp)
    obtain ⟨ty, vals, rfl⟩ := goodVal_vobj item hitem
    have hmem := self_mem_nodesOf ty vals hitem
    have h1 : List.Sublist [PyVal.vobj ty vals] (nodesOf (.vobj ty vals)) :=
      List.singleton_sublist.mpr hmem
    have h2 := ih (fun x hx => h x (by simp [hx]))
    show List.Sublist ([PyVal.vobj ty vals] ++ rest)
      (nodesOf (.vobj ty vals) ++ nodesOfSeq rest)
    exact h1.append h2

theorem fieldChildren_sublist (ann : Ann) (value : PyVal)
    (hcur : goodFieldOne ann value = true) :
    List.Sublist
      (fieldChildren (get_sqldantic_type SQLDANTIC_TYPE_MAP ann) value)
      (nodesOfField (get_sqldantic_type SQLDANTIC_TYPE_MAP ann) value) := by
  by_cases hv : value = PyVal.vnone
  · subst hv
    simp [fieldChildren, nodesOfField]
  · rcases hft : get_sqldantic_type SQLDANTIC_TYPE_MAP ann with ⟨st, it⟩
    cases st with
    | null => simp [fieldChildren, nodesOfField, hv]
    | text => simp [fieldChildren, nodesOfField, hv]
    | blob => simp [fieldChildren, nodesOfField, hv]
    | integer => simp [fieldChildren, nodesOfField, hv]
    | real => simp [fieldChildren, nodesOfField, hv]
    | timestamp => simp [fieldChildren, nodesOfField, hv]
    | unionT => simp [fieldChildren, nodesOfField, hv]
    | annotatedT => simp [fieldChildren, nodesOfField, hv]
    | modelT n2 fs2 =>
      cases value with
      | vobj ty2 vals2 =>
        simp [goodFieldOne, hft] at hcur
        simp only [fieldChildren, nodesOfField]
        rw [if_neg hv, if_neg hv]
        exact List.singleton_sublist.mpr (self_mem_nodesOf ty2 vals2 hcur.2)
      | vnone => exact absurd rfl hv
      | vstr s => simp [goodFieldOne, hft] at hcur
      | vint m => simp [goodFieldOne, hft] at hcur
      | vlist xs => simp [goodFieldOne, hft] at hcur
      | vdict kvs => simp [goodFieldOne, hft] at hcur
    | sequenceT =>
      rcases it with _ | (x | ⟨kt, vt⟩)
      · simp [fieldChildren, nodesOfField, hv]
      · cases x with
        | modelT n2 fs2 =>
          cases value with
          | vlist items =>
            simp [goodFieldOne, hft] at hcur
            simp only [fieldChildren, nodesOfField]
            rw [if_neg hv, if_neg hv]
            exact items_sublist_nodesOfSeq items
              (fun item hmem =>
                (goodObjItems_mem ⟨n2, fs2⟩ items hcur.2 item hmem).2)
          | vnone => exact absurd rfl hv
          | vstr s => simp [goodFieldOne, hft] at hcur
          | vint m => simp [goodFieldOne, hft] at hcur
          | vdict kvs => simp [goodFieldOne, hft] at hcur
          | vobj ty2 vals2 => simp [goodFieldOne, hft] at hcur
        | null => simp [fieldChildren, nodesOfField, hv]
        | text => simp [fieldChildren, nodesOfField, hv]
        | blob => simp [fieldChildren, nodesOfField, hv]
        | integer => simp [fieldChildren, nodesOfField, hv]
        | real => simp [fieldChildren, nodesOfField, hv]
        | timestamp => simp [fieldChildren, nodesOfField, hv]
        | unionT => simp [fieldChildren, nodesOfField, hv]
        | annotatedT => simp [fieldChildren, nodesOfField, hv]
        | sequenceT => simp [fieldChildren, nodesOfField, hv]
        | mappingT => simp [fieldChildren, nodesOfField, hv]
        | unknown => simp [fieldChildren, nodesOfField, hv]
      · simp [fieldChildren, nodesOfField, hv]
    | mappingT =>
      rcases it with _ | (x | ⟨kt, vt⟩)
      · simp [fieldChildren, nodesOfField, hv]
      · simp [fieldChildren, nodesOfField, hv]
      · cases vt with
        | modelT n2 fs2 =>
          cases value <;> first
            | exact absurd rfl hv
            | simp [goodFieldOne, hft] at hcur
        | null => simp [fieldChildren, nodesOfField, hv]
        | text => simp [fieldChildren, nodesOfField, hv]
        | blob => simp [fieldChildren, nodesOfField, hv]
        | integer => simp [fieldChildren, nodesOfField, hv]
        | real => simp [fieldChildren, nodesOfField, hv]
        | timestamp => simp [fieldChildren, nodesOfField, hv]
        | unionT => simp [fieldChildren, nodesOfField, hv]
        | annotatedT => simp [fieldChildren, nodesOfField, hv]
        | sequenceT => simp [fieldChildren, nodesOfField, hv]
        | mappingT => simp [fieldChildren, nodesOfField, hv]
        | unknown => simp [fieldChildren, nodesOfField, hv]
    | unknown =>
      rcases it with _ | (x | ⟨kt, vt⟩)
      · simp [fieldChildren, nodesOfField, hv]
      · cases x with
        | modelT n2 fs2 =>
          cases value <;> first
            | exact absurd rfl hv
            | simp [goodFieldOne, hft] at hcur
        | null => simp [fieldChildren, nodesOfField, hv]
        | text => simp [fieldChildren, nodesOfField, hv]
        | blob => simp [fieldChildren, nodesOfField, hv]
        | integer => simp [fieldChildren, nodesOfField, hv]
        | real => simp [fieldChildren, nodesOfField, hv]
        | timestamp => simp [fieldChildren, nodesOfField, hv]
        | unionT => simp [fieldChildren, nodesOfField, hv]
        | annotatedT => simp [fieldChildren, nodesOfField, hv]
        | sequenceT => simp [fieldChildren, nodesOfField, hv]
        | mappingT => simp [fieldChildren, nodesOfField, hv]
        | unknown => simp [fieldChildren, nodesOfField, hv]
      · simp [fieldChildren, nodesOfField, hv]

theorem childrenF_sublist (flds : List (String × Ann)) :
    ∀ (vals : List PyVal), goodFields flds vals = true →
    List.Sublist (childrenOfFields (sfieldsOf flds) vals)
      (nodesOfFields (sfieldsOf flds) vals) := by
  induction flds with
  | nil =>
    intro vals _
    cases vals <;> simp [sfieldsOf, childrenOfFields, nodesOfFields]
  | cons fld flds ih =>
    obtain ⟨fname, ann⟩ := fld
    intro vals hg
    cases vals with
    | nil => simp [sfieldsOf, childrenOfFields, nodesOfFields]
    | cons value vs =>
      rw [goodFields_cons, Bool.and_eq_true] at hg
      rw [show sfieldsOf ((fname, ann) :: flds) =
            (fname, get_sqldantic_type SQLDANTIC_TYPE_MAP ann) ::
              sfieldsOf flds from rfl]
      rw [nodesOfFields_cons]
      rw [show childrenOfFields
            ((fname, get_sqldantic_type SQLDANTIC_TYPE_MAP ann) ::
              sfieldsOf flds) (value :: vs) =
          fieldChildren (get_sqldantic_type SQLDANTIC_TYPE_MAP ann) value ++
            childrenOfFields (sfieldsOf flds) vs from rfl]
      exact (fieldChildren_sublist ann value hg.1).append (ih vs hg.2)

theorem subNodesAux (k : Nat) :
    (∀ v : PyVal, sizeOf v ≤ k → ∀ n ∈ nodesOf v,
       List.Sublist (nodesOf n) (nodesOf v)) ∧
    (∀ (flds : List (String × SFieldType)) (vals : List PyVal),
       sizeOf vals ≤ k → ∀ n ∈ nodesOfFields flds vals,
       List.Sublist (nodesOf n) (nodesOfFields flds vals)) ∧
    (∀ items : List PyVal, sizeOf items ≤ k → ∀ n ∈ nodesOfSeq items,
       List.Sublist (nodesOf n) (nodesOfSeq items)) ∧
    (∀ kvs : List (String × PyVal), sizeOf kvs ≤ k →
       ∀ n ∈ nodesOfMap kvs,
       List.Sublist (nodesOf n) (nodesOfMap kvs)) := by
  induction k with
  | zero =>
    refine ⟨?_, ?_, ?_, ?_⟩
    · intro v hk
      cases v <;> simp at hk
    · intro flds vals hk
      cases vals <;> simp at hk
    · intro items hk
      cases items <;> simp at hk
    · intro kvs hk
      cases kvs <;> simp at hk
  | succ k ih =>
    obtain ⟨ihV, ihF, ihS, ihM⟩ := ih
    refine ⟨?_, ?_, ?_, ?_⟩
    · intro v hk n hn
      cases v with
      | vobj ty vals =>
        have hk2 : sizeOf vals ≤ k := by
          simp at hk
          omega
        cases hsch : schemaOf ty with
        | none => simp [nodesOf, hsch] at hn
        | some sch =>
          simp only [nodesOf, hsch, List.mem_append,
            List.mem_singleton] at hn
          rcases hn with hn | rfl
          · have h1 := ihF sch.sqldantic_fields vals hk2 n hn
            simp only [nodesOf, hsch]
            exact h1.trans (List.sublist_append_left _ _)
          · exact List.Sublist.refl _
      | vnone => simp [nodesOf] at hn
      | vstr s => simp [nodesOf] at hn
      | vint m => simp [nodesOf] at hn
      | vlist xs => simp [nodesOf] at hn
      | vdict kvs => simp [nodesOf] at hn
    · intro flds vals hk n hn
      cases flds with
      | nil => cases vals <;> simp [nodesOfFields] at hn
      | cons fld flds =>
        obtain ⟨fname, ft⟩ := fld
        cases vals with
        | nil => simp [nodesOfFields] at hn
        | cons value vs =>
          have hkvs : sizeOf vs ≤ k := by
            simp at hk
            omega
          have hkv : sizeOf value ≤ k := by
            simp at hk
            omega
          rw [nodesOfFields_cons] at hn ⊢
          rw [List.mem_append] at hn
          rcases hn with hn | hn
          · by_cases hv : value = PyVal.vnone
            · subst hv
              simp [nodesOfField] at hn
            · obtain ⟨st, it⟩ := ft
              cases st with
              | null => simp [nodesOfField, hv] at hn
              | text => simp [nodesOfField, hv] at hn
              | blob => simp [nodesOfField, hv] at hn
              | integer => simp [nodesOfField, hv] at hn
              | real => simp [nodesOfField, hv] at hn
              | timestamp => simp [nodesOfField, hv] at hn
              | unionT => simp [nodesOfField, hv] at hn
              | annotatedT => simp [nodesOfField, hv] at hn
              | modelT n2 fs2 =>
                rw [show nodesOfField (SType.modelT n2 fs2, it) value =
                    nodesOf value from by simp [nodesOfField, hv]] at hn ⊢
                exact (ihV value hkv n hn).trans
                  (List.sublist_append_left _ _)
              | sequenceT =>
                rcases it with _ | (x | ⟨kt, vt⟩)
                · simp [nodesOfField, hv] at hn
                · cases x with
                  | modelT n2 fs2 =>
                    cases value with
                    | vlist items =>
                      rw [show nodesOfField (SType.sequenceT,
                            some (Sum.inl (SType.modelT n2 fs2)))
                            (PyVal.vlist items) = nodesOfSeq items from by
                          simp [nodesOfField, hv]] at hn ⊢
                      have hki : sizeOf items ≤ k := by
                        simp at hkv
                        omega
                      exact (ihS items hki n hn).trans
                        (List.sublist_append_left _ _)
                    | vnone => exact absurd rfl hv
                    | vstr s => simp [nodesOfField, hv] at hn
                    | vint m => simp [nodesOfField, hv] at hn
                    | vdict kvs => simp [nodesOfField, hv] at hn
                    | vobj ty2 vals2 => simp [nodesOfField, hv] at hn
                  | null => simp [nodesOfField, hv] at hn
                  | text => simp [nodesOfField, hv] at hn
                  | blob => simp [nodesOfField, hv] at hn
                  | integer => simp [nodesOfField, hv] at hn
                  | real => simp [nodesOfField, hv] at hn
                  | timestamp => simp [nodesOfField, hv] at hn
                  | unionT => simp [nodesOfField, hv] at hn
                  | annotatedT => simp [nodesOfField, hv] at hn
                  | sequenceT => simp [nodesOfField, hv] at hn
                  | mappingT => simp [nodesOfField, hv] at hn
                  | unknown => simp [nodesOfField, hv] at hn
                · simp [nodesOfField, hv] at hn
              | mappingT =>
                rcases it with _ | (x | ⟨kt, vt⟩)
                · simp [nodesOfField, hv] at hn
                · simp [nodesOfField, hv] at hn
                · cases vt with
                  | modelT n2 fs2 =>
                    cases value with
                    | vdict kvs =>
                      rw [show nodesOfField (SType.mappingT,
                            some (Sum.inr (kt, SType.modelT n2 fs2)))
                            (PyVal.vdict kvs) = nodesOfMap kvs from by
                          simp [nodesOfField, hv]] at hn ⊢
                      have hkk : sizeOf kvs ≤ k := by
                        simp at hkv
                        omega
                      exact (ihM kvs hkk n hn).trans
                        (List.sublist_append_left _ _)
                    | vnone => exact absurd rfl hv
                    | vstr s => simp [nodesOfField, hv] at hn
                    | vint m => simp [nodesOfField, hv] at hn
                    | vlist xs => simp [nodesOfField, hv] at hn
                    | vobj ty2 vals2 => simp [nodesOfField, hv] at hn
                  | null => simp [nodesOfField, hv] at hn
                  | text => simp [nodesOfField, hv] at hn
                  | blob => simp [nodesOfField, hv] at hn
                  | integer => simp [nodesOfField, hv] at hn
                  | real => simp [nodesOfField, hv] at hn
                  | timestamp => simp [nodesOfField, hv] at hn
                  | unionT => simp [nodesOfField, hv] at hn
                  | annotatedT => simp [nodesOfField, hv] at hn
                  | sequenceT => simp [nodesOfField, hv] at hn
                  | mappingT => simp [nodesOfField, hv] at hn
                  | unknown => simp [nodesOfField, hv] at hn
              | unknown =>
                rcases it with _ | (x | ⟨kt, vt⟩)
                · simp [nodesOfField, hv] at hn
                · cases x with
                  | modelT n2 fs2 =>
                    rw [show nodesOfField (SType.unknown,
                          some (Sum.inl (SType.modelT n2 fs2))) value =
                        nodesOf value from by simp [nodesOfField, hv]]
                      at hn ⊢
                    exact (ihV value hkv n hn).trans
                      (List.sublist_append_left _ _)
                  | null => simp [nodesOfField, hv] at hn
                  | text => simp [nodesOfField, hv] at hn
                  | blob => simp [nodesOfField, hv] at hn
                  | integer => simp [nodesOfField, hv] at hn
                  | real => simp [nodesOfField, hv] at hn
                  | timestamp => simp [nodesOfField, hv] at hn
                  | unionT => simp [nodesOfField, hv] at hn
                  | annotatedT => simp [nodesOfField, hv] at hn
                  | sequenceT => simp [nodesOfField, hv] at hn
                  | mappingT => simp [nodesOfField, hv] at hn
                  | unknown => simp [nodesOfField, hv] at hn
                · simp [nodesOfField, hv] at hn
          · exact (ihF flds vs hkvs n hn).trans
              (List.sublist_append_right _ _)
    · intro items hk n hn
      cases items with
      | nil => simp [nodesOfSeq] at hn
      | cons item rest =>
        have hki : sizeOf item ≤ k := by
          simp at hk
          omega
        have hkr : sizeOf rest ≤ k := by
          simp at hk
          omega
        simp only [nodesOfSeq, List.mem_append] at hn
        simp only [nodesOfSeq]
        rcases hn with hn | hn
        · exact (ihV item hki n hn).trans (List.sublist_append_left _ _)
        · exact (ihS rest hkr n hn).trans (List.sublist_append_right _ _)
    · intro kvs hk n hn
      cases kvs with
      | nil => simp [nodesOfMap] at hn
      | cons kv rest =>
        obtain ⟨k2, v2⟩ := kv
        have hkv2 : sizeOf v2 ≤ k := by
          simp at hk
          omega
        have hkr : sizeOf rest ≤ k := by
          simp at hk
          omega
        simp only [nodesOfMap, List.mem_append] at hn
        simp only [nodesOfMap]
        rcases hn with hn | hn
        · exact (ihV v2 hkv2 n hn).trans (List.sublist_append_left _ _)
        · exact (ihM rest hkr n hn).trans (List.sublist_append_right _ _)

theorem subNodes (v n : PyVal) (hn : n ∈ nodesOf v) :
    List.Sublist (nodesOf n) (nodesOf v) :=
  (subNodesAux (sizeOf v)).1 v (le_refl _) n hn

/-- The hydration-level contribution of one field (the corresponding
branch of `heightFields`, named). -/
def heightField (ann : Ann) (value : PyVal) : Nat :=
  if value = PyVal.vnone then 0
  else
    match get_sqldantic_type SQLDANTIC_TYPE_MAP ann with
    | (SType.modelT _ _, _) => heightOf value
    | (SType.sequenceT, some (.inl (SType.modelT _ _))) =>
      match value with
      | .vlist items => heightSeq items
      | _ => 0
    | _ => 0

theorem heightFields_cons (fname : String) (ann : Ann)
    (flds : List (String × Ann)) (value : PyVal) (vs : List PyVal) :
    heightFields ((fname, ann) :: flds) (value :: vs) =
      max (heightField ann value) (heightFields flds vs) := by
  by_cases hv : value = PyVal.vnone
  · subst hv
    simp [heightFields, heightField]
  · rcases hft : get_sqldantic_type SQLDANTIC_TYPE_MAP ann with ⟨st, it⟩
    cases st <;> rcases it with _ | (x | ⟨kt, vt⟩) <;> (try cases x) <;>
        (try cases vt) <;> cases value <;>
      simp [heightFields, heightField, hft, hv]

theorem heightOf_vobj (ty : ModelTy) (vals : List PyVal) :
    heightOf (.vobj ty vals) = heightFields ty.fields vals + 1 := by
  simp [heightOf]

theorem countQMarks_append (a b : String) :
    countQMarks (a ++ b) = countQMarks a + countQMarks b := by
  simp [countQMarks, String.data_append, List.countP_append]

theorem countQMarks_eq_zero (s : String)
    (h : s.data.contains '?' = false) : countQMarks s = 0 := by
  rw [countQMarks, List.countP_eq_zero]
  intro c hc hq
  rw [beq_iff_eq] at hq
  subst hq
  exact contains_false_not_mem s.data _ h hc

theorem countQMarks_questionMarks :
    (n : Nat) → countQMarks (questionMarks n) = n
  | 0 => by decide
  | 1 => by decide
  | n + 2 => by
    rw [questionMarks, countQMarks_append,
      countQMarks_questionMarks (n + 1)]
    rw [show countQMarks "?, " = 1 from by decide]
    omega

theorem strStartsWith_of_prefix (s pre : String)
    (h : ∃ r, s.data = pre.data ++ r) : strStartsWith s pre = true := by
  obtain ⟨r, hr⟩ := h
  show (pre.data.isPrefixOf s.data) = true
  rw [List.isPrefixOf_iff_prefix, hr]
  exact List.prefix_append _ _

/-- Correctness of a nested-hydration callback at recursion budget
`f`: on every select the read path can issue, it returns exactly the
matched nodes. -/
def HydOK (vtop : PyVal) (f : Nat) (hyd : NestedHyd) : Prop :=
  ∀ (m2 : ModelTy) (qs : List String), 0 < f → qs ≠ [] →
    goodTyShape m2.name m2.fields = true →
    (∀ u ∈ matchedNodes vtop m2 qs, tyOfVal u = m2) →
    (∀ u ∈ matchedNodes vtop m2 qs, heightOf u ≤ f) →
    (hyd m2 (qs.map Cell.ctext)).2 = .ok (matchedNodes vtop m2 qs)

theorem tableOfVal_node (vtop : PyVal)
    (hall : ∀ n ∈ nodesOf vtop, goodVal n = true)
    (u : PyVal) (hu : u ∈ nodesOf vtop) :
    tableOfVal u = tableNameOf (tyOfVal u) := by
  obtain ⟨ty, vals, rfl⟩ := goodVal_vobj u (hall u hu)
  rw [tableOfVal_good ty vals (hall _ hu)]
  rfl

theorem pkStrOf_node (vtop : PyVal)
    (hall : ∀ n ∈ nodesOf vtop, goodVal n = true)
    (u : PyVal) (hu : u ∈ nodesOf vtop) :
    pkStrOf u ≠ "" ∧ sepChar ∉ (pkStrOf u).data := by
  obtain ⟨ty, vals, rfl⟩ := goodVal_vobj u (hall u hu)
  obtain ⟨s, _, hpk, hne, hsep⟩ := pkStrOf_good ty vals (hall _ hu)
  rw [hpk]
  exact ⟨hne, contains_false_not_mem _ _ hsep⟩

theorem matched_items (vtop : PyVal) (hnd : (identsOf vtop).Nodup)
    (hall : ∀ n ∈ nodesOf vtop, goodVal n = true) (m2 : ModelTy)
    (items : List PyVal) (hsub : List.Sublist items (nodesOf vtop))
    (htys : ∀ u ∈ items, tyOfVal u = m2) :
    matchedNodes vtop m2 (items.map pkStrOf) = items := by
  refine filter_sublist_eq identOf _ (nodesOf vtop) items hsub hnd ?_
  intro x hx
  constructor
  · intro hpx
    simp only [Bool.and_eq_true, beq_iff_eq, List.any_eq_true,
      List.mem_map] at hpx
    obtain ⟨hx1, q, ⟨item, hitem, rfl⟩, hx2⟩ := hpx
    have hident : identOf x = identOf item := by
      have hti : tableOfVal item = tableNameOf m2 := by
        rw [tableOfVal_node vtop hall item (hsub.subset hitem),
          htys item hitem]
      simp [identOf, hx1, hx2, hti]
    have := List.inj_on_of_nodup_map hnd hx (hsub.subset hitem) hident
    rw [this]
    exact hitem
  · intro hx2
    simp only [Bool.and_eq_true, beq_iff_eq, List.any_eq_true,
      List.mem_map]
    refine ⟨?_, pkStrOf x, ⟨x, hx2, rfl⟩, by simp⟩
    rw [tableOfVal_node vtop hall x hx, htys x hx2]

theorem matched_empty (vtop : PyVal) (hnd : (identsOf vtop).Nodup)
    (hall : ∀ n ∈ nodesOf vtop, goodVal n = true) (m2 : ModelTy) :
    matchedNodes vtop m2 [""] = [] := by
  refine filter_sublist_eq identOf _ (nodesOf vtop) []
    (List.nil_sublist _) hnd ?_
  intro x hx
  simp only [List.not_mem_nil, iff_false]
  intro hpx
  simp only [Bool.and_eq_true, beq_iff_eq, List.any_eq_true,
    List.mem_singleton] at hpx
  obtain ⟨_, q, rfl, hx2⟩ := hpx
  exact (pkStrOf_node vtop hall x hx).1 hx2
